import Mathlib

/-!
Verification development for the WaterKit hydrogen-bond anchor geometry core
(`waterkit/molecule.py`, `waterkit/water.py`).

The geometry code operates on 3-vectors of double-precision floats; we embed
them as exact real 3-vectors (`V3`).  The primitive vector-algebra kernel
(the `utils` module) is not part of the given sources; following the
specification (§2 "Vector Algebra Kernel", §4.2 numeric semantics), each of
its operations is modelled from the spec's words and marked as such in its
doc comment.  Fallible operations (`normalize` on a zero vector, list/array
indexing, the unset-variable paths of `_hb_vectors`) are embedded with
`Option`/`Except` so that "the computation succeeds" is expressible.
-/

namespace WK

open scoped Classical

/-- Exact-real embedding of a 3D double-precision vector (a numpy array of
shape (3,) in the source). -/
structure V3 where
  x : ℝ
  y : ℝ
  z : ℝ

namespace V3

instance : Zero V3 := ⟨⟨0, 0, 0⟩⟩

instance : Add V3 := ⟨fun a b => ⟨a.x + b.x, a.y + b.y, a.z + b.z⟩⟩

instance : Sub V3 := ⟨fun a b => ⟨a.x - b.x, a.y - b.y, a.z - b.z⟩⟩

instance : Neg V3 := ⟨fun a => ⟨-a.x, -a.y, -a.z⟩⟩

instance : SMul ℝ V3 := ⟨fun c a => ⟨c * a.x, c * a.y, c * a.z⟩⟩

@[simp] theorem add_x (a b : V3) : (a + b).x = a.x + b.x := rfl

@[simp] theorem add_y (a b : V3) : (a + b).y = a.y + b.y := rfl

@[simp] theorem add_z (a b : V3) : (a + b).z = a.z + b.z := rfl

@[simp] theorem sub_x (a b : V3) : (a - b).x = a.x - b.x := rfl

@[simp] theorem sub_y (a b : V3) : (a - b).y = a.y - b.y := rfl

@[simp] theorem sub_z (a b : V3) : (a - b).z = a.z - b.z := rfl

@[simp] theorem neg_x (a : V3) : (-a).x = -a.x := rfl

@[simp] theorem neg_y (a : V3) : (-a).y = -a.y := rfl

@[simp] theorem neg_z (a : V3) : (-a).z = -a.z := rfl

@[simp] theorem smul_x (c : ℝ) (a : V3) : (c • a).x = c * a.x := rfl

@[simp] theorem smul_y (c : ℝ) (a : V3) : (c • a).y = c * a.y := rfl

@[simp] theorem smul_z (c : ℝ) (a : V3) : (c • a).z = c * a.z := rfl

@[simp] theorem zero_x : (0 : V3).x = 0 := rfl

@[simp] theorem zero_y : (0 : V3).y = 0 := rfl

@[simp] theorem zero_z : (0 : V3).z = 0 := rfl

@[simp] theorem mk_x (a b c : ℝ) : (V3.mk a b c).x = a := rfl

@[simp] theorem mk_y (a b c : ℝ) : (V3.mk a b c).y = b := rfl

@[simp] theorem mk_z (a b c : ℝ) : (V3.mk a b c).z = c := rfl

@[ext] theorem ext' {a b : V3} (hx : a.x = b.x) (hy : a.y = b.y) (hz : a.z = b.z) :
    a = b := by
  cases a
  cases b
  simp_all

theorem eq_iff {a b : V3} : a = b ↔ a.x = b.x ∧ a.y = b.y ∧ a.z = b.z := by
  constructor
  · rintro rfl
    exact ⟨rfl, rfl, rfl⟩
  · rintro ⟨hx, hy, hz⟩
    exact ext' hx hy hz

end V3

/-- Dot product of two 3-vectors. -/
def dotp (a b : V3) : ℝ := a.x * b.x + a.y * b.y + a.z * b.z

/-- Cross product of two 3-vectors (right-hand rule). -/
def crossp (a b : V3) : V3 :=
  ⟨a.y * b.z - a.z * b.y, a.z * b.x - a.x * b.z, a.x * b.y - a.y * b.x⟩

theorem dotp_comm (a b : V3) : dotp a b = dotp b a := by
  simp only [dotp]
  ring

theorem dotp_self_nonneg (v : V3) : 0 ≤ dotp v v := by
  simp only [dotp]
  nlinarith [sq_nonneg v.x, sq_nonneg v.y, sq_nonneg v.z]

theorem dotp_self_eq_zero {v : V3} (h : dotp v v = 0) : v = 0 := by
  simp only [dotp] at h
  ext <;> simp <;> nlinarith [sq_nonneg v.x, sq_nonneg v.y, sq_nonneg v.z]

theorem dotp_self_pos {v : V3} (h : v ≠ 0) : 0 < dotp v v := by
  rcases lt_or_eq_of_le (dotp_self_nonneg v) with hlt | heq
  · exact hlt
  · exact absurd (dotp_self_eq_zero heq.symm) h

theorem dotp_smul_left (c : ℝ) (a b : V3) : dotp (c • a) b = c * dotp a b := by
  simp only [dotp, V3.smul_x, V3.smul_y, V3.smul_z]
  ring

theorem dotp_smul_right (c : ℝ) (a b : V3) : dotp a (c • b) = c * dotp a b := by
  simp only [dotp, V3.smul_x, V3.smul_y, V3.smul_z]
  ring

theorem dotp_cross_left (k u : V3) : dotp (crossp k u) u = 0 := by
  simp only [dotp, crossp, V3.mk_x, V3.mk_y, V3.mk_z]
  ring

theorem dotp_cross_right (k u : V3) : dotp u (crossp k u) = 0 := by
  simp only [dotp, crossp, V3.mk_x, V3.mk_y, V3.mk_z]
  ring

theorem dotp_cross_axis (k u : V3) : dotp k (crossp k u) = 0 := by
  simp only [dotp, crossp, V3.mk_x, V3.mk_y, V3.mk_z]
  ring

theorem lagrange_identity (k u : V3) :
    dotp (crossp k u) (crossp k u) = dotp k k * dotp u u - dotp k u ^ 2 := by
  simp only [dotp, crossp, V3.mk_x, V3.mk_y, V3.mk_z]
  ring

/-- Modelled from the spec: Euclidean norm of a vector (the magnitude used by
the kernel's `normalize` and distance primitives; missing `utils` module). -/
noncomputable def vnorm (v : V3) : ℝ := Real.sqrt (dotp v v)

theorem vnorm_nonneg (v : V3) : 0 ≤ vnorm v := Real.sqrt_nonneg _

theorem vnorm_sq (v : V3) : vnorm v ^ 2 = dotp v v :=
  Real.sq_sqrt (dotp_self_nonneg v)

theorem vnorm_pos {v : V3} (h : v ≠ 0) : 0 < vnorm v :=
  Real.sqrt_pos.mpr (dotp_self_pos h)

theorem vnorm_ne_zero {v : V3} (h : v ≠ 0) : vnorm v ≠ 0 := ne_of_gt (vnorm_pos h)

theorem vnorm_eq_of_dotp {v : V3} {d : ℝ} (hd : 0 ≤ d) (h : dotp v v = d ^ 2) :
    vnorm v = d := by
  rw [vnorm, h, Real.sqrt_sq hd]

theorem vnorm_smul (c : ℝ) (v : V3) : vnorm (c • v) = |c| * vnorm v := by
  rw [vnorm, vnorm, dotp_smul_left, dotp_smul_right, ← mul_assoc, ← sq,
    Real.sqrt_mul (sq_nonneg c), Real.sqrt_sq_eq_abs]

/-- Modelled from the spec: `utils.get_euclidean_distance`, the pairwise
Euclidean distance primitive of the Vector Algebra Kernel (§2). -/
noncomputable def euclideanDistance (a b : V3) : ℝ := vnorm (b - a)

/-- Total unit-vector helper: `v / |v|`, with the Lean convention
`(0 : ℝ)⁻¹ = 0` giving `unitv 0 = 0`. -/
noncomputable def unitv (v : V3) : V3 := (vnorm v)⁻¹ • v

theorem vnorm_unitv {v : V3} (h : v ≠ 0) : vnorm (unitv v) = 1 := by
  rw [unitv, vnorm_smul, abs_of_nonneg (inv_nonneg.mpr (vnorm_nonneg v)),
    inv_mul_cancel₀ (vnorm_ne_zero h)]

theorem dotp_unitv_self {v : V3} (h : v ≠ 0) : dotp (unitv v) (unitv v) = 1 := by
  have := vnorm_sq (unitv v)
  rw [vnorm_unitv h] at this
  simpa using this.symm

theorem unitv_ne_zero {v : V3} (h : v ≠ 0) : unitv v ≠ 0 := by
  intro hz
  have := vnorm_unitv h
  rw [hz] at this
  simp [vnorm, dotp] at this

/-- Modelled from the spec: `utils.vector(a, b)`, the displacement vector from
`a` to `b` (so that, per §4.4, `vector(oxygen, anchor)` points from the oxygen
toward the anchor). -/
def vector (a b : V3) : V3 := b - a

/-- Modelled from the spec: `utils.normalize`, which "fails with
`DegenerateVector` if the input has near-zero magnitude" (§4.2); embedded as
`none` exactly on the zero vector. -/
noncomputable def normalize (v : V3) : Option V3 :=
  if v = 0 then none else some (unitv v)

theorem normalize_eq_some {v u : V3} (h : normalize v = some u) :
    v ≠ 0 ∧ u = unitv v := by
  rw [normalize] at h
  split at h
  · exact absurd h (by simp)
  · exact ⟨by assumption, by simpa using h.symm⟩

theorem normalize_of_ne_zero {v : V3} (h : v ≠ 0) : normalize v = some (unitv v) := by
  rw [normalize, if_neg h]

/-- Modelled from the spec: `utils.resize_vector(p, length, origin)`, the
"resize-to-length" primitive: the point rescaled so that its distance from
`origin` equals `length` (§4.2 step (b)); degenerate input fails. -/
noncomputable def resizeVector (p : V3) (length : ℝ) (origin : V3) : Option V3 :=
  (normalize (vector origin p)).map (fun u => origin + length • u)

theorem resizeVector_eq_some {p o u : V3} {L : ℝ}
    (h : resizeVector p L o = some u) :
    p - o ≠ 0 ∧ u = o + L • unitv (p - o) := by
  rw [resizeVector, vector] at h
  rcases Option.map_eq_some'.mp h with ⟨w, hw, hu⟩
  obtain ⟨hne, rfl⟩ := normalize_eq_some hw
  exact ⟨hne, hu.symm⟩

theorem sub_add_cancel_v3 (o w : V3) : o + w - o = w := by
  ext <;> simp <;> ring

/-- Distance of a successfully resized point from the origin of the resize:
always exactly `|length|`. -/
theorem resizeVector_dist {p o u : V3} {L : ℝ} (hL : 0 ≤ L)
    (h : resizeVector p L o = some u) : euclideanDistance o u = L := by
  obtain ⟨hne, rfl⟩ := resizeVector_eq_some h
  rw [euclideanDistance, sub_add_cancel_v3, vnorm_smul, vnorm_unitv hne,
    mul_one, abs_of_nonneg hL]

/-- Relative position of a successfully resized point. -/
theorem resizeVector_sub {p o u : V3} {L : ℝ}
    (h : resizeVector p L o = some u) :
    u - o = (L * (vnorm (p - o))⁻¹) • (p - o) := by
  obtain ⟨hne, rfl⟩ := resizeVector_eq_some h
  rw [sub_add_cancel_v3, unitv]
  ext <;> simp <;> ring

/-- Degrees-to-radians conversion (`np.radians`); §4.2: "angles are supplied
in degrees and converted to radians immediately before rotation". -/
noncomputable def radians (d : ℝ) : ℝ := d * Real.pi / 180

theorem radians_neg (d : ℝ) : radians (-d) = -radians d := by
  rw [radians, radians]
  ring

theorem radians_zero : radians 0 = 0 := by
  rw [radians]
  ring

/-- Modelled from the spec: `utils.get_perpendicular_vector`, the
"perpendicular-vector construction" primitive ("pick a random vector
perpendicular to vector v", §4.2 table); modelled as a deterministic choice
of a vector perpendicular to the input. -/
noncomputable def perpendicularVector (v : V3) : V3 :=
  if v.x = 0 ∧ v.y = 0 then ⟨1, 0, 0⟩ else ⟨-v.y, v.x, 0⟩

theorem perpendicularVector_dotp (v : V3) : dotp (perpendicularVector v) v = 0 := by
  rw [perpendicularVector]
  split
  · rename_i h
    simp only [dotp, V3.mk_x, V3.mk_y, V3.mk_z, h.1]
    ring
  · simp only [dotp, V3.mk_x, V3.mk_y, V3.mk_z]
    ring

theorem perpendicularVector_ne_zero {v : V3} (h : v ≠ 0) :
    perpendicularVector v ≠ 0 := by
  rw [perpendicularVector]
  split
  · intro hz
    rw [V3.eq_iff] at hz
    simp at hz
  · rename_i hxy
    intro hz
    rw [V3.eq_iff] at hz
    simp only [V3.mk_x, V3.mk_y, V3.mk_z, V3.zero_x, V3.zero_y, V3.zero_z,
      neg_eq_zero] at hz
    exact hxy ⟨hz.2.1, hz.1⟩

/-- Sum of a list of vectors (`np.sum` along axis 0). -/
def vsum : List V3 → V3
  | [] => 0
  | v :: rest => v + vsum rest

/-- Mean of a list of vectors (`np.mean(p, axis=0)`). -/
noncomputable def vmean (l : List V3) : V3 := ((l.length : ℝ))⁻¹ • vsum l

/-- Modelled from the spec: `utils.atom_to_move(o, p)`, the geometric
completion point "just above" atom `o`, opposite its neighbors `p` (the
"third leg" of the trigonal plane, resp. the tetrahedral completion, §4.2
table); modelled as the reflection direction away from the neighbors' mean. -/
noncomputable def atomToMove (o : V3) (ps : List V3) : V3 := o + (o - vmean ps)

/-- Modelled from the spec: `utils.rotation_axis(a, b, c, origin)`, the
"rotation axis = perpendicular to the plane defined by" the three points,
placed through `origin` (§4.2 table, hyb 2 / contacts 2); fails on a
degenerate (collinear) plane. -/
noncomputable def rotationAxis (a b c origin : V3) : Option V3 :=
  (normalize (crossp (vector b a) (vector b c))).map (fun u => origin + u)

/-- Rodrigues rotation of the relative vector `w` about the unit axis
direction `k` by angle `θ` (right-hand sense). -/
noncomputable def rodrigues (k : V3) (θ : ℝ) (w : V3) : V3 :=
  Real.cos θ • w + Real.sin θ • crossp k w +
    ((1 - Real.cos θ) * dotp k w) • k

/-- Modelled from the spec: `utils.rotate_point(p, p1, p2, angle)`, "a rigid
rotation of a point about a line defined by a point and direction, by a
signed angle in a right-hand sense" (§4.2); the line runs from `p1` toward
`p2`.  Call sites always construct `p2` at unit offset from `p1`, so the
internal normalization of the axis direction is total here. -/
noncomputable def rotatePoint (p p1 p2 : V3) (θ : ℝ) : V3 :=
  p1 + rodrigues (unitv (p2 - p1)) θ (p - p1)

theorem rodrigues_zero (k w : V3) : rodrigues k 0 w = w := by
  rw [rodrigues, Real.cos_zero, Real.sin_zero]
  ext <;> simp <;> ring

theorem rotatePoint_zero (p p1 p2 : V3) : rotatePoint p p1 p2 0 = p := by
  rw [rotatePoint, rodrigues_zero]
  ext <;> simp <;> ring

theorem add_sub_self_v3 (o w : V3) : o + (w - o) = w := by
  ext <;> simp <;> ring

theorem dotp_add_left (a b c : V3) : dotp (a + b) c = dotp a c + dotp b c := by
  simp only [dotp, V3.add_x, V3.add_y, V3.add_z]
  ring

theorem dotp_add_right (a b c : V3) : dotp a (b + c) = dotp a b + dotp a c := by
  simp only [dotp, V3.add_x, V3.add_y, V3.add_z]
  ring

/-- For a unit axis perpendicular to the rotated vector, the Rodrigues
rotation stays in the plane spanned by `w` and `k × w`. -/
theorem rodrigues_perp {k w : V3} (hperp : dotp k w = 0) (θ : ℝ) :
    rodrigues k θ w = Real.cos θ • w + Real.sin θ • crossp k w := by
  rw [rodrigues, hperp, mul_zero]
  ext <;> simp

/-- Dot product of two Rodrigues rotations of the same vector about a unit
axis perpendicular to it: the angle-difference cosine formula, stated through
the sum of the entrywise cosine/sine products. -/
theorem dotp_rodrigues_rodrigues {k w : V3} (hk : dotp k k = 1)
    (hperp : dotp k w = 0) (θ₁ θ₂ : ℝ) :
    dotp (rodrigues k θ₁ w) (rodrigues k θ₂ w) =
      (Real.cos θ₁ * Real.cos θ₂ + Real.sin θ₁ * Real.sin θ₂) * dotp w w := by
  rw [rodrigues_perp hperp, rodrigues_perp hperp]
  simp only [dotp_add_left, dotp_add_right, dotp_smul_left, dotp_smul_right,
    dotp_cross_left, dotp_cross_right, lagrange_identity, hk, hperp]
  ring

theorem dotp_rodrigues_self {k w : V3} (hk : dotp k k = 1)
    (hperp : dotp k w = 0) (θ : ℝ) :
    dotp (rodrigues k θ w) w = Real.cos θ * dotp w w := by
  have h := dotp_rodrigues_rodrigues hk hperp θ 0
  rw [rodrigues_zero, Real.cos_zero, Real.sin_zero] at h
  rw [h]
  ring

theorem dotp_rodrigues_same {k w : V3} (hk : dotp k k = 1)
    (hperp : dotp k w = 0) (θ : ℝ) :
    dotp (rodrigues k θ w) (rodrigues k θ w) = dotp w w := by
  rw [dotp_rodrigues_rodrigues hk hperp θ θ]
  linear_combination dotp w w * Real.sin_sq_add_cos_sq θ

/-- Rotating by `θ` and then by `-θ` about the same unit axis restores the
vector (no perpendicularity needed). -/
theorem rodrigues_neg_rodrigues {k : V3} (hk : dotp k k = 1) (θ : ℝ) (w : V3) :
    rodrigues k (-θ) (rodrigues k θ w) = w := by
  have hp : Real.sin θ ^ 2 + Real.cos θ ^ 2 = 1 := Real.sin_sq_add_cos_sq θ
  rw [dotp] at hk
  simp only [rodrigues, Real.cos_neg, Real.sin_neg, crossp, dotp, V3.add_x,
    V3.add_y, V3.add_z, V3.smul_x, V3.smul_y, V3.smul_z, V3.mk_x, V3.mk_y,
    V3.mk_z]
  ext
  · simp only [V3.add_x, V3.smul_x, V3.mk_x]
    linear_combination (Real.sin θ ^ 2 * w.x +
        (1 - Real.cos θ) ^ 2 * (k.x * w.x + k.y * w.y + k.z * w.z) * k.x) * hk +
      (w.x - (k.x * w.x + k.y * w.y + k.z * w.z) * k.x) * hp
  · simp only [V3.add_y, V3.smul_y, V3.mk_y]
    linear_combination (Real.sin θ ^ 2 * w.y +
        (1 - Real.cos θ) ^ 2 * (k.x * w.x + k.y * w.y + k.z * w.z) * k.y) * hk +
      (w.y - (k.x * w.x + k.y * w.y + k.z * w.z) * k.y) * hp
  · simp only [V3.add_z, V3.smul_z, V3.mk_z]
    linear_combination (Real.sin θ ^ 2 * w.z +
        (1 - Real.cos θ) ^ 2 * (k.x * w.x + k.y * w.y + k.z * w.z) * k.z) * hk +
      (w.z - (k.x * w.x + k.y * w.y + k.z * w.z) * k.z) * hp

theorem rotatePoint_sub (p p1 p2 : V3) (θ : ℝ) :
    rotatePoint p p1 p2 θ - p1 = rodrigues (unitv (p2 - p1)) θ (p - p1) := by
  rw [rotatePoint, sub_add_cancel_v3]

/-- Round-trip law for the point rotation about a nondegenerate axis. -/
theorem rotatePoint_neg_rotatePoint {p1 p2 : V3} (h : p2 - p1 ≠ 0) (θ : ℝ)
    (p : V3) : rotatePoint (rotatePoint p p1 p2 θ) p1 p2 (-θ) = p := by
  rw [rotatePoint, rotatePoint_sub,
    rodrigues_neg_rodrigues (dotp_unitv_self h) θ, add_sub_self_v3]

/-!
Neighbor traversal (`Molecule._push_atom_to_end`, `Molecule.neighbor_atoms`).
Atoms are embedded by identifier; the bond graph is the adjacency function
`adj` (the iteration order of `OBAtomAtomIter`) and `num` gives the atomic
number of each atom.
-/

/-- One step of the `_push_atom_to_end` loop body:
`lst.append(lst.pop(i))`. -/
def popPush {α : Type} (l : List α) (i : ℕ) : List α :=
  l.eraseIdx i ++ (l.get? i).toList

/-- Python's `[i for i, x in enumerate(lst) if x.GetAtomicNum() == n]`,
generalized over the Boolean test and the starting index of `enumerate`. -/
def targetIdxAux {α : Type} (t : α → Bool) : List α → ℕ → List ℕ
  | [], _ => []
  | a :: l, i => if t a then i :: targetIdxAux t l (i + 1) else targetIdxAux t l (i + 1)

/-- The `for i in idx` loop of `_push_atom_to_end`: each stored index is
corrected by `pop_count` (the third argument) before popping. -/
def moveLoop {α : Type} : List α → List ℕ → ℕ → List α
  | l, [], _ => l
  | l, i :: is, popCount => moveLoop (popPush l (i - popCount)) is (popCount + 1)

/-- `Molecule._push_atom_to_end(lst, atomic_nums)`: for each requested atomic
number, move all matching atoms to the end of the list. -/
def pushAtomToEnd {α : Type} (num : α → ℕ) (l : List α) (nums : List ℕ) : List α :=
  nums.foldl (fun acc n => moveLoop acc (targetIdxAux (fun a => num a == n) acc 0) 0) l

theorem popPush_cons_succ {α : Type} (a : α) (l : List α) (i : ℕ) :
    popPush (a :: l) (i + 1) = a :: popPush l i := by
  simp [popPush]

theorem popPush_cons_zero {α : Type} (a : α) (l : List α) :
    popPush (a :: l) 0 = l ++ [a] := by
  simp [popPush]

/-- Indices of a `targetIdxAux` are at least the starting index, so a
`moveLoop` over them never touches a head element sitting strictly below
that index: the head passes through. -/
theorem moveLoop_cons {α : Type} (t : α → Bool) (src : List α) :
    ∀ (L : List α) (a : α) (k m : ℕ), k + 1 ≤ m →
      moveLoop (a :: L) (targetIdxAux t src m) k =
        a :: moveLoop L (targetIdxAux t src m) (k + 1) := by
  induction src with
  | nil => intro L a k m _; rfl
  | cons b src ih =>
      intro L a k m hkm
      by_cases hb : t b
      · rw [targetIdxAux, if_pos hb, moveLoop, moveLoop]
        have hm : m - k = (m - (k + 1)) + 1 := by omega
        rw [hm, popPush_cons_succ]
        exact ih (popPush L (m - (k + 1))) a (k + 1) (m + 1) (by omega)
      · rw [targetIdxAux, if_neg hb]
        exact ih L a k (m + 1) (by omega)

/-- The pop-and-append loop of `_push_atom_to_end` is a stable partition:
non-matching elements first (in order), then matching elements (in order).
The trailing block `C` is untouched because the stored indices only address
the original front part. -/
theorem moveLoop_targetIdxAux {α : Type} (t : α → Bool) :
    ∀ (l C : List α) (k : ℕ),
      moveLoop (l ++ C) (targetIdxAux t l k) k =
        l.filter (fun a => !(t a)) ++ C ++ l.filter t := by
  intro l
  induction l with
  | nil => intro C k; simp [targetIdxAux, moveLoop]
  | cons a l ih =>
      intro C k
      by_cases ha : t a
      · rw [List.cons_append, targetIdxAux, if_pos ha, moveLoop, Nat.sub_self,
          popPush_cons_zero, List.append_assoc]
        rw [ih (C ++ [a]) (k + 1)]
        simp [ha, List.filter_cons]
      · rw [List.cons_append, targetIdxAux, if_neg ha,
          moveLoop_cons t l (l ++ C) a k (k + 1) le_rfl]
        rw [ih C (k + 1)]
        simp [ha, List.filter_cons]

/-- `_push_atom_to_end` with a single atomic number is exactly the stable
partition by that atomic number. -/
theorem pushAtomToEnd_single {α : Type} (num : α → ℕ) (l : List α) (n : ℕ) :
    pushAtomToEnd num l [n] =
      l.filter (fun a => !(num a == n)) ++ l.filter (fun a => num a == n) := by
  have h := moveLoop_targetIdxAux (fun a => num a == n) l [] 0
  simpa [pushAtomToEnd] using h

/-- One pop of the BFS while-loop at depth `d < depth`: append `i` to the
current level's output (done by the caller), mark it visited, and enqueue its
not-yet-visited neighbors of acceptable atomic number. -/
def bfsStep (adj : ℕ → List ℕ) (num : ℕ → ℕ) (keep : ℕ)
    (st : (ℕ → Bool) × List ℕ) (i : ℕ) : (ℕ → Bool) × List ℕ :=
  let v' := fun j => if j = i then true else st.1 j
  (v', st.2 ++ (adj i).filter (fun a => !(v' a) && decide (keep ≤ num a)))

/-- Process one FIFO generation of the BFS queue of `neighbor_atoms`: the
queue is depth-ordered, so the pops at one depth are exactly the entries
enqueued by the previous depth, in order. -/
def processLevel (adj : ℕ → List ℕ) (num : ℕ → ℕ) (keep : ℕ)
    (level : List ℕ) (visited : ℕ → Bool) : (ℕ → Bool) × List ℕ :=
  level.foldl (bfsStep adj num keep) (visited, [])

/-- The per-depth output lists of the BFS while-loop of `neighbor_atoms`
(before hydrogens are pushed to the end).  A level is emitted exactly when a
pop occurs at that depth; expansion stops once the requested depth is
reached. -/
def bfsLevels (adj : ℕ → List ℕ) (num : ℕ → ℕ) (keep : ℕ) :
    ℕ → List ℕ → (ℕ → Bool) → List (List ℕ)
  | _, [], _ => []
  | 0, a :: level, _ => [a :: level]
  | d + 1, a :: level, visited =>
      let st := processLevel adj num keep (a :: level) visited
      (a :: level) :: bfsLevels adj num keep d st.2 st.1

/-- `Molecule.neighbor_atoms(start_index, depth, hydrogen)`: breadth-first
per-depth atom lists, with `atomic_num_to_keep = 1` when hydrogens are kept
and `2` otherwise, and hydrogens (atomic number 1) pushed to the end of every
level. -/
def neighborAtoms (adj : ℕ → List ℕ) (num : ℕ → ℕ) (startIndex depth : ℕ)
    (hydrogen : Bool) : List (List ℕ) :=
  let atomicNumToKeep := if hydrogen then 1 else 2
  (bfsLevels adj num atomicNumToKeep depth [startIndex] (fun _ => false)).map
    (fun lv => pushAtomToEnd num lv [1])

theorem bfsStep_keep (adj : ℕ → List ℕ) (num : ℕ → ℕ) (keep : ℕ) :
    ∀ (lvl : List ℕ) (st : (ℕ → Bool) × List ℕ),
      (∀ a ∈ st.2, keep ≤ num a) →
      ∀ a ∈ (lvl.foldl (bfsStep adj num keep) st).2, keep ≤ num a := by
  intro lvl
  induction lvl with
  | nil => intro st hst a ha; exact hst a ha
  | cons i lvl ih =>
      intro st hst a ha
      refine ih _ ?_ a ha
      intro b hb
      rcases List.mem_append.mp hb with hb | hb
      · exact hst b hb
      · have := List.of_mem_filter hb
        simp only [Bool.and_eq_true, decide_eq_true_eq] at this
        exact this.2

theorem processLevel_keep (adj : ℕ → List ℕ) (num : ℕ → ℕ) (keep : ℕ)
    (level : List ℕ) (visited : ℕ → Bool) :
    ∀ a ∈ (processLevel adj num keep level visited).2, keep ≤ num a := by
  exact bfsStep_keep adj num keep level (visited, []) (by simp)

theorem bfsLevels_get_zero (adj : ℕ → List ℕ) (num : ℕ → ℕ) (keep : ℕ) :
    ∀ (d : ℕ) (level : List ℕ) (visited : ℕ → Bool) (lv : List ℕ),
      (bfsLevels adj num keep d level visited).get? 0 = some lv → lv = level := by
  intro d level visited lv h
  match d, level with
  | _, [] => simp [bfsLevels] at h
  | 0, a :: level => simpa [bfsLevels] using h.symm
  | d + 1, a :: level => simpa [bfsLevels] using h.symm

/-- Every level of the BFS output beyond depth 0 consists of enqueued atoms
only, hence atoms whose atomic number reached the `keep` threshold. -/
theorem bfsLevels_tail_keep (adj : ℕ → List ℕ) (num : ℕ → ℕ) (keep : ℕ) :
    ∀ (d : ℕ) (level : List ℕ) (visited : ℕ → Bool) (i : ℕ) (lv : List ℕ),
      (bfsLevels adj num keep d level visited).get? (i + 1) = some lv →
      ∀ a ∈ lv, keep ≤ num a := by
  intro d
  induction d with
  | zero =>
      intro level visited i lv h
      match level with
      | [] => simp [bfsLevels] at h
      | a :: level => simp [bfsLevels] at h
  | succ d ih =>
      intro level visited i lv h
      match level with
      | [] => simp [bfsLevels] at h
      | b :: level =>
          rw [bfsLevels] at h
          simp only [List.get?_cons_succ] at h
          match i with
          | 0 =>
              have := bfsLevels_get_zero adj num keep d _ _ lv h
              subst this
              exact processLevel_keep adj num keep _ _
          | i + 1 => exact ih _ _ i lv h

/-!
Anchor vector computation (`Molecule._hb_vectors`).  The Python failure modes
are embedded as typed errors: `indexError` for a missing neighbor entry
(`neighbors_xyz[i][j]`), `degenerateVector` for a failing `utils.normalize`,
and `nameError` for the hybridization/contact-count combinations that leave
`r`/`p`/`angles` unset before the final loop.
-/

/-- Error kinds raised inside `_hb_vectors` (all swallowed by the bare
`except` of `guess_hydrogen_bond_anchors`). -/
inductive HbErr where
  | indexError : HbErr
  | degenerateVector : HbErr
  | nameError : HbErr
deriving DecidableEq

/-- Lookup `neighbors_xyz[i][j]`, failing like the Python indexing. -/
def getNbr (neighborsXyz : List (List V3)) (i j : ℕ) : Except HbErr V3 :=
  match (neighborsXyz.get? i).bind (fun l => l.get? j) with
  | some v => Except.ok v
  | none => Except.error HbErr.indexError

/-- `utils.normalize` surfaced as a typed `DegenerateVector` error (§4.2). -/
noncomputable def normalizeE (v : V3) : Except HbErr V3 :=
  match normalize v with
  | some u => Except.ok u
  | none => Except.error HbErr.degenerateVector

/-- `utils.resize_vector` surfaced as a typed error (its internal
normalization is the failing step). -/
noncomputable def resizeVectorE (p : V3) (length : ℝ) (origin : V3) :
    Except HbErr V3 :=
  match resizeVector p length origin with
  | some u => Except.ok u
  | none => Except.error HbErr.degenerateVector

/-- `utils.rotation_axis` surfaced as a typed error. -/
noncomputable def rotationAxisE (a b c origin : V3) : Except HbErr V3 :=
  match rotationAxis a b c origin with
  | some u => Except.ok u
  | none => Except.error HbErr.degenerateVector

/-- The final loop of `_hb_vectors`: for each angle, rotate the base point
`p` about the axis through the anchor and `r` when the angle is nonzero, then
unconditionally resize to `hb_length` from the anchor. -/
noncomputable def hbFinish (anchorXyz : V3) (hbLength : ℝ) (r p : V3)
    (angles : List ℝ) : Except HbErr (List V3) :=
  angles.mapM (fun angle =>
    resizeVectorE (if angle ≠ 0 then rotatePoint p anchorXyz r angle else p)
      hbLength anchorXyz)

/-- `Molecule._hb_vectors(idx, hyb, n_hbond, hb_length)` after the container
lookups: `anchorXyz` is `self.coordinates(idx)[0]` and `neighborsXyz` is
`self.neighbor_atom_coordinates(idx, depth=2)`.  The `n_hbond = 3` cases of
hybridizations 1 and 2 re-dispatch to the tetrahedral block, which reads
`neighbors_xyz[1][1]` before dispatching on the contact count.  The cases in
which the Python code reaches the final loop with `r`/`p`/`angles` unbound
are `nameError`. -/
noncomputable def hbVectors (anchorXyz : V3) (hyb nHbond : ℕ) (hbLength : ℝ)
    (neighborsXyz : List (List V3)) : Except HbErr (List V3) := do
  let neighbor1Xyz ← getNbr neighborsXyz 1 0
  if hyb = 1 ∧ nHbond = 1 then
    hbFinish anchorXyz hbLength anchorXyz
      (anchorXyz + vector neighbor1Xyz anchorXyz) [0]
  else if hyb = 2 ∧ nHbond = 1 then do
    let neighbor2Xyz ← getNbr neighborsXyz 1 1
    hbFinish anchorXyz hbLength anchorXyz
      (atomToMove anchorXyz [neighbor1Xyz, neighbor2Xyz]) [0]
  else if hyb = 2 ∧ nHbond = 2 then do
    let neighbor2Xyz ← getNbr neighborsXyz 2 0
    let r ← rotationAxisE neighbor1Xyz anchorXyz neighbor2Xyz anchorXyz
    hbFinish anchorXyz hbLength r neighbor1Xyz [-(radians 120), radians 120]
  else if (if hyb = 1 ∧ nHbond = 3 then 3 else
           if hyb = 2 ∧ nHbond = 3 then 3 else hyb) = 3 then do
    let neighbor2Xyz ← getNbr neighborsXyz 1 1
    if nHbond = 1 then do
      let neighbor3Xyz ← getNbr neighborsXyz 1 2
      let u1 ← normalizeE (vector anchorXyz neighbor1Xyz)
      let u2 ← normalizeE (vector anchorXyz neighbor2Xyz)
      let u3 ← normalizeE (vector anchorXyz neighbor3Xyz)
      hbFinish anchorXyz hbLength anchorXyz
        (atomToMove anchorXyz [anchorXyz + u1, anchorXyz + u2, anchorXyz + u3]) [0]
    else if nHbond = 2 then do
      let u1 ← normalizeE (vector anchorXyz neighbor1Xyz)
      let u2 ← normalizeE (vector anchorXyz neighbor2Xyz)
      let rdir ← normalizeE (vector (anchorXyz + u1) (anchorXyz + u2))
      hbFinish anchorXyz hbLength (anchorXyz + rdir)
        (atomToMove anchorXyz [anchorXyz + u1, anchorXyz + u2])
        [-(radians 60), radians 60]
    else if nHbond = 3 then do
      let u ← normalizeE (vector anchorXyz neighbor1Xyz)
      let p := rotatePoint neighbor1Xyz anchorXyz
        (anchorXyz + perpendicularVector u) (radians 109.471)
      let rdir ← normalizeE (vector neighbor1Xyz anchorXyz)
      hbFinish anchorXyz hbLength (anchorXyz + rdir) p
        [0, -(radians 120), radians 120]
    else throw HbErr.nameError
  else throw HbErr.nameError

theorem exceptBind_ok {ε α β : Type} {x : Except ε α} {f : α → Except ε β}
    {b : β} : x.bind f = Except.ok b ↔ ∃ a, x = Except.ok a ∧ f a = Except.ok b := by
  cases x with
  | error e => simp [Except.bind]
  | ok a => simp [Except.bind]

theorem exceptMapM_ok_mem {ε α β : Type} (f : α → Except ε β) :
    ∀ (l : List α) (bs : List β), List.mapM f l = Except.ok bs →
      ∀ b ∈ bs, ∃ a ∈ l, f a = Except.ok b := by
  intro l
  induction l with
  | nil =>
      intro bs h b hb
      rw [List.mapM_nil] at h
      cases h
      simp at hb
  | cons a l ih =>
      intro bs h b hb
      rw [List.mapM_cons] at h
      have hbind : (f a).bind
          (fun c => (List.mapM f l).bind fun cs => Except.ok (c :: cs)) =
            Except.ok bs := h
      rcases exceptBind_ok.mp hbind with ⟨c, hc, h2⟩
      rcases exceptBind_ok.mp h2 with ⟨cs, hcs, h3⟩
      cases h3
      rcases List.mem_cons.mp hb with rfl | hmem
      · exact ⟨a, List.mem_cons_self a l, hc⟩
      · rcases ih cs hcs b hmem with ⟨a', ha', hfa'⟩
        exact ⟨a', List.mem_cons_of_mem a ha', hfa'⟩

theorem resizeVectorE_ok {p o u : V3} {L : ℝ}
    (h : resizeVectorE p L o = Except.ok u) : resizeVector p L o = some u := by
  rw [resizeVectorE] at h
  split at h
  · rename_i heq
    cases h
    exact heq
  · cases h

/-- Every vector produced by the final loop of `_hb_vectors` sits at distance
exactly `hb_length` from the anchor: the resize is the last, unconditional
step. -/
theorem hbFinish_dist {anchorXyz r p : V3} {L : ℝ} {angles : List ℝ}
    {vs : List V3} (hL : 0 ≤ L) (h : hbFinish anchorXyz L r p angles = Except.ok vs) :
    ∀ v ∈ vs, euclideanDistance anchorXyz v = L := by
  intro v hv
  rcases exceptMapM_ok_mem _ angles vs h v hv with ⟨angle, _, hres⟩
  exact resizeVector_dist hL (resizeVectorE_ok hres)

/-- Explicit bind form of `hbVectors` (the do-notation unfolded). -/
theorem hbVectors_def (anchorXyz : V3) (hyb nHbond : ℕ) (L : ℝ)
    (neighborsXyz : List (List V3)) :
    hbVectors anchorXyz hyb nHbond L neighborsXyz =
      ((getNbr neighborsXyz 1 0).bind fun neighbor1Xyz =>
      if hyb = 1 ∧ nHbond = 1 then
        hbFinish anchorXyz L anchorXyz
          (anchorXyz + vector neighbor1Xyz anchorXyz) [0]
      else if hyb = 2 ∧ nHbond = 1 then
        (getNbr neighborsXyz 1 1).bind fun neighbor2Xyz =>
        hbFinish anchorXyz L anchorXyz
          (atomToMove anchorXyz [neighbor1Xyz, neighbor2Xyz]) [0]
      else if hyb = 2 ∧ nHbond = 2 then
        (getNbr neighborsXyz 2 0).bind fun neighbor2Xyz =>
        (rotationAxisE neighbor1Xyz anchorXyz neighbor2Xyz anchorXyz).bind fun r =>
        hbFinish anchorXyz L r neighbor1Xyz [-(radians 120), radians 120]
      else if (if hyb = 1 ∧ nHbond = 3 then 3 else
               if hyb = 2 ∧ nHbond = 3 then 3 else hyb) = 3 then
        (getNbr neighborsXyz 1 1).bind fun neighbor2Xyz =>
        if nHbond = 1 then
          (getNbr neighborsXyz 1 2).bind fun neighbor3Xyz =>
          (normalizeE (vector anchorXyz neighbor1Xyz)).bind fun u1 =>
          (normalizeE (vector anchorXyz neighbor2Xyz)).bind fun u2 =>
          (normalizeE (vector anchorXyz neighbor3Xyz)).bind fun u3 =>
          hbFinish anchorXyz L anchorXyz
            (atomToMove anchorXyz
              [anchorXyz + u1, anchorXyz + u2, anchorXyz + u3]) [0]
        else if nHbond = 2 then
          (normalizeE (vector anchorXyz neighbor1Xyz)).bind fun u1 =>
          (normalizeE (vector anchorXyz neighbor2Xyz)).bind fun u2 =>
          (normalizeE (vector (anchorXyz + u1) (anchorXyz + u2))).bind fun rdir =>
          hbFinish anchorXyz L (anchorXyz + rdir)
            (atomToMove anchorXyz [anchorXyz + u1, anchorXyz + u2])
            [-(radians 60), radians 60]
        else if nHbond = 3 then
          (normalizeE (vector anchorXyz neighbor1Xyz)).bind fun u =>
          (normalizeE (vector neighbor1Xyz anchorXyz)).bind fun rdir =>
          hbFinish anchorXyz L (anchorXyz + rdir)
            (rotatePoint neighbor1Xyz anchorXyz
              (anchorXyz + perpendicularVector u) (radians 109.471))
            [0, -(radians 120), radians 120]
        else throw HbErr.nameError
      else throw HbErr.nameError) := rfl

/-- Every successful run of `_hb_vectors` ends in the shared final loop. -/
theorem hbVectors_ok_finish {anchorXyz : V3} {hyb nHbond : ℕ} {L : ℝ}
    {neighborsXyz : List (List V3)} {vs : List V3}
    (h : hbVectors anchorXyz hyb nHbond L neighborsXyz = Except.ok vs) :
    ∃ r p angles, hbFinish anchorXyz L r p angles = Except.ok vs := by
  rw [hbVectors_def] at h
  rcases exceptBind_ok.mp h with ⟨n1, _, h⟩
  by_cases h11 : hyb = 1 ∧ nHbond = 1
  · rw [if_pos h11] at h
    exact ⟨_, _, _, h⟩
  · rw [if_neg h11] at h
    by_cases h21 : hyb = 2 ∧ nHbond = 1
    · rw [if_pos h21] at h
      rcases exceptBind_ok.mp h with ⟨n2, _, h⟩
      exact ⟨_, _, _, h⟩
    · rw [if_neg h21] at h
      by_cases h22 : hyb = 2 ∧ nHbond = 2
      · rw [if_pos h22] at h
        rcases exceptBind_ok.mp h with ⟨n2, _, h⟩
        rcases exceptBind_ok.mp h with ⟨r, _, h⟩
        exact ⟨_, _, _, h⟩
      · rw [if_neg h22] at h
        by_cases h3 : (if hyb = 1 ∧ nHbond = 3 then 3 else
            if hyb = 2 ∧ nHbond = 3 then 3 else hyb) = 3
        · rw [if_pos h3] at h
          rcases exceptBind_ok.mp h with ⟨n2, _, h⟩
          by_cases hn1 : nHbond = 1
          · rw [if_pos hn1] at h
            rcases exceptBind_ok.mp h with ⟨n3, _, h⟩
            rcases exceptBind_ok.mp h with ⟨u1, _, h⟩
            rcases exceptBind_ok.mp h with ⟨u2, _, h⟩
            rcases exceptBind_ok.mp h with ⟨u3, _, h⟩
            exact ⟨_, _, _, h⟩
          · rw [if_neg hn1] at h
            by_cases hn2 : nHbond = 2
            · rw [if_pos hn2] at h
              rcases exceptBind_ok.mp h with ⟨u1, _, h⟩
              rcases exceptBind_ok.mp h with ⟨u2, _, h⟩
              rcases exceptBind_ok.mp h with ⟨rdir, _, h⟩
              exact ⟨_, _, _, h⟩
            · rw [if_neg hn2] at h
              by_cases hn3 : nHbond = 3
              · rw [if_pos hn3] at h
                rcases exceptBind_ok.mp h with ⟨u, _, h⟩
                rcases exceptBind_ok.mp h with ⟨rdir, _, h⟩
                exact ⟨_, _, _, h⟩
              · rw [if_neg hn3] at h
                have h' : (Except.error HbErr.nameError : Except HbErr (List V3)) =
                    Except.ok vs := h
                cases h'
        · rw [if_neg h3] at h
          have h' : (Except.error HbErr.nameError : Except HbErr (List V3)) =
              Except.ok vs := h
          cases h'

/-!
Water rigid body (`Water.build_tip5p`, `Water.rotate`, `Water.translate`).
The water's sites live in its own OBMol; we embed the coordinate content.
The `get_coordinates`/`get_atom_types` accessors called by these methods do
not exist on `Water` or `Molecule` (see the attribute-resolution model
below); the geometry here embeds the method bodies with those names resolved
to the `coordinates`/`atom_types` accessors that do exist.
-/

/-- TIP5P distance table `d` of `build_tip5p` (indices 0–3). -/
noncomputable def tip5pD (anchorType : String) : Fin 4 → ℝ :=
  if anchorType = "acceptor" then ![0.9572, 0.9572, 0.7, 0.7]
  else ![0.7, 0.7, 0.9572, 0.9572]

/-- TIP5P angle table `a` of `build_tip5p` (degrees, indices 0–1). -/
noncomputable def tip5pA (anchorType : String) : Fin 2 → ℝ :=
  if anchorType = "acceptor" then ![104.52, 109.47] else ![109.47, 104.52]

/-- Atom types added by `build_tip5p`, in emission order (`atom_types` in the
source: always `['HD', 'HD', 'Lp', 'Lp']`). -/
def tip5pTypes : List String := ["HD", "HD", "Lp", "Lp"]

/-- `Water.build_tip5p()`: the four satellite sites added to the oxygen, as
(position, atom type) pairs in the order they are passed to `add_atom`.
`oxygenXyz` is the oxygen coordinate (`self.get_coordinates(0)[0]`) and
`anchorXyz` is `self._anchor[0]`, the heavy-atom anchor position. -/
noncomputable def buildTip5p (oxygenXyz anchorXyz : V3) (anchorType : String) :
    Option (List (V3 × String)) := do
  let d := tip5pD anchorType
  let a := tip5pA anchorType
  let v ← normalize (vector oxygenXyz anchorXyz)
  let p := oxygenXyz + perpendicularVector v
  let a1 := oxygenXyz + d 0 • v
  let a2 ← resizeVector (rotatePoint a1 oxygenXyz p (radians (a 0))) (d 1) oxygenXyz
  let pm := atomToMove oxygenXyz [a1, a2]
  let rdir ← normalize (vector a1 a2)
  let r := oxygenXyz + rdir
  let a3 ← resizeVector (rotatePoint pm oxygenXyz r (radians (a 1 / 2))) (d 3) oxygenXyz
  let a4 ← resizeVector (rotatePoint pm oxygenXyz r (-radians (a 1 / 2))) (d 3) oxygenXyz
  let atoms := if anchorType = "acceptor" then [a1, a2, a3, a4] else [a3, a4, a1, a2]
  pure (atoms.zip tip5pTypes)

/-- The per-site update loop of `Water.rotate`: every site except the oxygen
(index 0) and the chosen reference site is rotated about the axis through the
oxygen and `r`; the index argument tracks the position in the original
coordinate snapshot. -/
noncomputable def rotateSites (oxygenXyz r : V3) (θ : ℝ) (refId : ℕ) :
    ℕ → List V3 → List V3
  | _, [] => []
  | i, s :: rest =>
      (if i = 0 ∨ i = refId then s else rotatePoint s oxygenXyz r θ) ::
        rotateSites oxygenXyz r θ refId (i + 1) rest

/-- `Water.rotate(angle, ref_id)` on the list of site coordinates: build the
axis from the oxygen toward the reference site's opposite, then rotate all
other non-oxygen sites by `np.radians(angle)`. -/
noncomputable def waterRotate (sites : List V3) (angle : ℝ) (refId : ℕ) :
    Option (List V3) := do
  let oxygenXyz ← sites.get? 0
  let refXyz ← sites.get? refId
  let dir ← normalize (vector refXyz oxygenXyz)
  let r := oxygenXyz + dir
  some (rotateSites oxygenXyz r (radians angle) refId 0 sites)

/-- `Water.translate(vector)` on the list of site coordinates. -/
def waterTranslate (sites : List V3) (v : V3) : List V3 :=
  sites.map (fun s => s + v)

/-!
Clash test (`Molecule.is_clash`).
-/

/-- The distance matrix `utils.get_euclidean_distance(xyz, atoms)` of
`is_clash`, one row per tested point. -/
noncomputable def clashDistances (xyz atoms : List V3) : List (List ℝ) :=
  xyz.map (fun p => atoms.map (fun q => euclideanDistance p q))

/-- The `d -= radius` step of `is_clash`: subtract the exclusion radius from
every entry when one is given. -/
noncomputable def clashValues (xyz atoms : List V3) (radius : Option ℝ) :
    List (List ℝ) :=
  match radius with
  | some r => (clashDistances xyz atoms).map (fun row => row.map (fun e => e - r))
  | none => clashDistances xyz atoms

/-- `Molecule.is_clash(xyz, molecule, radius)` with the reference coordinate
set already resolved (`molecule.coordinates()` or `self.coordinates()`):
subtract the radius if given, then test whether any entry is strictly
negative (`(d < 0.).any()`). -/
noncomputable def isClash (xyz atoms : List V3) (radius : Option ℝ) : Prop :=
  ∃ row ∈ clashValues xyz atoms radius, ∃ e ∈ row, e < 0

/-!
Anchor discovery (`Molecule.guess_hydrogen_bond_anchors`).  The waterfield's
atom-type table and the pattern matcher are external collaborators (§6); a
pattern definition carries its matcher output (the anchor atom index
`match[0]` of each match, 1-based).  The container is abstracted by its
coordinate accessor and its depth-2 neighbor-coordinates accessor (both
0-based, as called by `_hb_vectors`).
-/

/-- An entry of the waterfield's atom-type table (hybridization, expected
water contacts, ideal hydrogen-bond length, hydrogen-bond role code). -/
structure AtomTypeDef where
  hyb : ℕ
  nWater : ℕ
  hbLength : ℝ
  hbTypeNum : ℕ

/-- A named pattern definition together with the anchor atom indices its
structural pattern matches in the container (first tuple elements of the
matcher's output, 1-based). -/
structure PatternDef where
  pname : String
  ty : AtomTypeDef
  pmatches : List ℕ

/-- Role decoding of `guess_hydrogen_bond_anchors`: 1 is donor, 2 is
acceptor, anything else is `None`. -/
def hbRole (hbTypeNum : ℕ) : Option String :=
  if hbTypeNum = 1 then some "donor"
  else if hbTypeNum = 2 then some "acceptor"
  else none

/-- A row of the `hydrogen_bond_anchors` table: 0-based atom index, anchor
vector, role, pattern name. -/
structure AnchorRow where
  atomI : ℕ
  vectorXyz : V3
  anchorType : Option String
  anchorName : String

/-- Discovery state: the `visited` array (1-based indices), the anchor rows
accumulated so far, and the printed warnings (atom index and type name) for
atoms whose geometry computation failed. -/
def DiscoveryState : Type := (ℕ → Bool) × List AnchorRow × List (ℕ × String)

/-- The body of the `for match in matches` loop of
`guess_hydrogen_bond_anchors`: a `None`-role pattern marks the atom visited;
an unvisited atom is marked and its anchor vectors computed, the bare
`except` turning any failure into a printed warning. -/
noncomputable def processMatch (coords : ℕ → V3) (nbrs : ℕ → List (List V3))
    (ty : AtomTypeDef) (name : String) (st : DiscoveryState) (idx : ℕ) :
    DiscoveryState :=
  let hbType := hbRole ty.hbTypeNum
  let visited := st.1
  let visited₁ := if hbType = none ∧ visited idx = false then
    fun j => if j = idx then true else visited j else visited
  if visited₁ idx = false then
    let visited₂ := fun j => if j = idx then true else visited₁ j
    match hbVectors (coords (idx - 1)) ty.hyb ty.nWater ty.hbLength (nbrs (idx - 1)) with
    | Except.ok vs =>
        (visited₂, st.2.1 ++ vs.map (fun v => ⟨idx - 1, v, hbType, name⟩), st.2.2)
    | Except.error _ => (visited₂, st.2.1, st.2.2 ++ [(idx, name)])
  else (visited₁, st.2.1, st.2.2)

/-- The `for match in matches` loop over one pattern definition. -/
noncomputable def processPattern (coords : ℕ → V3) (nbrs : ℕ → List (List V3))
    (st : DiscoveryState) (p : PatternDef) : DiscoveryState :=
  p.pmatches.foldl (processMatch coords nbrs p.ty p.pname) st

/-- `Molecule.guess_hydrogen_bond_anchors(waterfield)`: iterate the pattern
definitions in reverse declaration order (`keys()[::-1]`) over a fresh
`visited` array, then stably sort the rows by ascending atom index
(`sort_values(by="atom_i")`).  Returns the rows together with the warnings
printed for skipped anchors. -/
noncomputable def guessHydrogenBondAnchors (coords : ℕ → V3)
    (nbrs : ℕ → List (List V3)) (patterns : List PatternDef) :
    List AnchorRow × List (ℕ × String) :=
  let st := patterns.reverse.foldl (processPattern coords nbrs)
    (fun _ => false, [], [])
  (st.2.1.mergeSort (fun r1 r2 => r1.atomI ≤ r2.atomI), st.2.2)

/-!
Attribute resolution (`water.py` / `molecule.py` method tables).  Python
resolves `self.name` by looking up `name` on the instance's class and then on
its bases; `Water`'s public operations reference accessors that neither
`Water` nor `Molecule` defines.
-/

/-- Methods defined by `class Molecule` in `molecule.py`. -/
def moleculeMethods : List String :=
  ["__init__", "__copy__", "__deepcopy__", "from_file",
   "_atom_types_from_pdbqt_file", "is_water", "atom", "residue",
   "coordinates", "atom_types", "partial_charges", "atom_informations",
   "is_clash", "_push_atom_to_end", "neighbor_atoms",
   "neighbor_atom_coordinates", "guess_rotatable_bonds",
   "guess_hydrogen_bond_anchors", "_hb_vectors", "to_file",
   "export_hb_vectors"]

/-- Methods defined by `class Water(Molecule)` in `water.py`. -/
def waterMethods : List String :=
  ["__init__", "add_atom", "update_coordinates", "get_energy", "build_tip5p",
   "guess_hydrogen_bond_anchors", "translate", "rotate"]

/-- The `self.<method>(...)` calls appearing in the body of each public
`Water` operation (`water.py`). -/
def waterSelfMethodCalls : String → List String
  | "get_energy" => ["get_coordinates", "get_atom_types"]
  | "build_tip5p" => ["get_coordinates", "add_atom"]
  | "guess_hydrogen_bond_anchors" => ["_get_hb_vectors"]
  | "translate" => ["get_coordinates", "update_coordinates"]
  | "rotate" => ["get_coordinates", "update_coordinates"]
  | _ => []

/-- Python attribute lookup for a method name on a `Water` instance:
`Water.__dict__`, then the base `Molecule.__dict__`. -/
def waterResolves (name : String) : Bool :=
  name ∈ waterMethods || name ∈ moleculeMethods

/-!
Claim theorems.
-/

/-- C1: for every hybridization/contact-count case and every input on which
the anchor-vector computation succeeds, each returned vector lies at
Euclidean distance exactly `hb_length` from the anchor position: after any
case-specific rotation, the unconditional rescaling to `hb_length` is the
last step applied to every output. -/
theorem hbVectors_distance_eq_hbLength (anchorXyz : V3) (hyb nHbond : ℕ)
    (hbLength : ℝ) (neighborsXyz : List (List V3)) (vs : List V3)
    (hL : 0 ≤ hbLength)
    (h : hbVectors anchorXyz hyb nHbond hbLength neighborsXyz = Except.ok vs) :
    ∀ v ∈ vs, euclideanDistance anchorXyz v = hbLength := by
  rcases hbVectors_ok_finish h with ⟨r, p, angles, hfin⟩
  exact hbFinish_dist hL hfin

theorem exceptBind_ok_apply {ε α β : Type} (a : α) (f : α → Except ε β) :
    (Except.ok a : Except ε α).bind f = f a := rfl

theorem neg_one_vec_ne_zero : (⟨-1, 0, 0⟩ : V3) ≠ 0 := by
  intro h
  rw [V3.eq_iff] at h
  norm_num at h

theorem normalize_neg_one_vec :
    normalize (⟨-1, 0, 0⟩ : V3) = some ⟨-1, 0, 0⟩ := by
  rw [normalize_of_ne_zero neg_one_vec_ne_zero]
  have hd : dotp (⟨-1, 0, 0⟩ : V3) ⟨-1, 0, 0⟩ = 1 := by
    simp [dotp]
  have hn : vnorm (⟨-1, 0, 0⟩ : V3) = 1 := by
    rw [vnorm, hd, Real.sqrt_one]
  have hs : ((1 : ℝ))⁻¹ • (⟨-1, 0, 0⟩ : V3) = ⟨-1, 0, 0⟩ := by
    ext <;> simp
  rw [unitv, hn, hs]

/-- The spec's §8 scenario: a linear donor with one neighbor at `(1,0,0)`
relative to an anchor at the origin and bond length 2 produces the single
output `(-2,0,0)`. -/
theorem hbVectors_linear_scenario :
    hbVectors ⟨0, 0, 0⟩ 1 1 2 [[], [⟨1, 0, 0⟩]] = Except.ok [⟨-2, 0, 0⟩] := by
  rw [hbVectors_def]
  rw [show getNbr [[], [⟨1, 0, 0⟩]] 1 0 = Except.ok ⟨1, 0, 0⟩ from rfl,
    exceptBind_ok_apply]
  rw [if_pos (⟨rfl, rfl⟩ : (1 : ℕ) = 1 ∧ (1 : ℕ) = 1)]
  have hp : (⟨0, 0, 0⟩ : V3) + vector ⟨1, 0, 0⟩ ⟨0, 0, 0⟩ = ⟨-1, 0, 0⟩ := by
    rw [vector]
    ext <;> simp
  rw [hp, hbFinish, List.mapM_cons, List.mapM_nil]
  have hres : resizeVectorE (if (0 : ℝ) ≠ 0 then
      rotatePoint ⟨-1, 0, 0⟩ ⟨0, 0, 0⟩ ⟨0, 0, 0⟩ 0 else ⟨-1, 0, 0⟩) 2 ⟨0, 0, 0⟩ =
      Except.ok ⟨-2, 0, 0⟩ := by
    rw [if_neg (not_not_intro rfl), resizeVectorE, resizeVector]
    have hv : vector (⟨0, 0, 0⟩ : V3) ⟨-1, 0, 0⟩ = ⟨-1, 0, 0⟩ := by
      rw [vector]
      ext <;> simp
    rw [hv, normalize_neg_one_vec, Option.map_some']
    have : (⟨0, 0, 0⟩ : V3) + (2 : ℝ) • ⟨-1, 0, 0⟩ = ⟨-2, 0, 0⟩ := by
      ext <;> simp
    rw [this]
  rw [hres]
  rfl

/-- Witness for C1 at the spec's concrete linear scenario. -/
theorem hbVectors_distance_eq_hbLength_witness :
    hbVectors ⟨0, 0, 0⟩ 1 1 2 [[], [⟨1, 0, 0⟩]] = Except.ok [⟨-2, 0, 0⟩] ∧
      (0 : ℝ) ≤ 2 ∧
      ∀ v ∈ [(⟨-2, 0, 0⟩ : V3)], euclideanDistance ⟨0, 0, 0⟩ v = 2 :=
  ⟨hbVectors_linear_scenario, by norm_num,
    hbVectors_distance_eq_hbLength ⟨0, 0, 0⟩ 1 1 2 [[], [⟨1, 0, 0⟩]]
      [⟨-2, 0, 0⟩] (by norm_num) hbVectors_linear_scenario⟩

/-- C10: whenever the effective hybridization is 3 (the direct tetrahedral
case and both the re-dispatched linear `hyb = 1, contacts = 3` and planar
`hyb = 2, contacts = 3` cases), `neighbors_xyz[1][1]` is read before
dispatching on the contact count, so an anchor atom with exactly one depth-1
neighbor and contact count 3 always fails with an index error instead of
producing the three vectors of the table. -/
theorem hbVectors_three_contacts_single_neighbor_indexError (anchorXyz n1 : V3)
    (hyb : ℕ) (hbLength : ℝ) (neighborsXyz : List (List V3))
    (hh : hyb = 1 ∨ hyb = 2 ∨ hyb = 3)
    (hn : neighborsXyz.get? 1 = some [n1]) :
    hbVectors anchorXyz hyb 3 hbLength neighborsXyz =
      Except.error HbErr.indexError := by
  have h10 : getNbr neighborsXyz 1 0 = Except.ok n1 := by
    rw [getNbr, hn]
    rfl
  have h11 : getNbr neighborsXyz 1 1 = Except.error HbErr.indexError := by
    rw [getNbr, hn]
    rfl
  rw [hbVectors_def, h10, exceptBind_ok_apply]
  rcases hh with rfl | rfl | rfl
  · rw [if_neg (by simp), if_neg (by simp), if_neg (by simp),
      if_pos (by simp), h11]
    rfl
  · rw [if_neg (by simp), if_neg (by simp), if_neg (by simp),
      if_pos (by simp), h11]
    rfl
  · rw [if_neg (by simp), if_neg (by simp), if_neg (by simp),
      if_pos (by simp), h11]
    rfl

/-- Witness for C10 at a concrete single-neighbor container, exercising the
re-dispatched planar (`hyb = 2, contacts = 3`) case. -/
theorem hbVectors_three_contacts_single_neighbor_indexError_witness :
    ((([[], [⟨1, 0, 0⟩]] : List (List V3)).get? 1 = some [⟨1, 0, 0⟩]) ∧
      hbVectors ⟨0, 0, 0⟩ 2 3 1 [[], [⟨1, 0, 0⟩]] =
        Except.error HbErr.indexError) :=
  ⟨rfl, hbVectors_three_contacts_single_neighbor_indexError ⟨0, 0, 0⟩ ⟨1, 0, 0⟩
    2 1 [[], [⟨1, 0, 0⟩]] (Or.inr (Or.inl rfl)) rfl⟩

/-- C4: `translate`, `rotate`, `build_tip5p` and `get_energy` all reference
`self.get_coordinates` (and `get_energy` also `self.get_atom_types`), names
defined neither on `Water` nor on its base `Molecule` (which defines
`coordinates` and `atom_types` instead), so Python attribute lookup fails on
every call to these operations. -/
theorem water_accessors_unresolvable :
    (∀ m ∈ ["translate", "rotate", "build_tip5p", "get_energy"],
      "get_coordinates" ∈ waterSelfMethodCalls m) ∧
    waterResolves "get_coordinates" = false ∧
    "get_atom_types" ∈ waterSelfMethodCalls "get_energy" ∧
    waterResolves "get_atom_types" = false ∧
    "coordinates" ∈ moleculeMethods ∧
    "atom_types" ∈ moleculeMethods := by
  refine ⟨?_, ?_, ?_, ?_, ?_, ?_⟩ <;> decide

theorem isClash_iff (xyz atoms : List V3) (radius : Option ℝ) :
    isClash xyz atoms radius ↔
      ∃ p ∈ xyz, ∃ q ∈ atoms, euclideanDistance p q - radius.getD 0 < 0 := by
  cases radius with
  | none =>
      rw [isClash]
      have hcv : clashValues xyz atoms none = clashDistances xyz atoms := rfl
      rw [hcv, clashDistances]
      constructor
      · rintro ⟨row, hrow, e, he, hlt⟩
        rcases List.mem_map.mp hrow with ⟨p, hp, rfl⟩
        rcases List.mem_map.mp he with ⟨q, hq, rfl⟩
        exact ⟨p, hp, q, hq, by simpa using hlt⟩
      · rintro ⟨p, hp, q, hq, hlt⟩
        exact ⟨_, List.mem_map_of_mem _ hp, _, List.mem_map_of_mem _ hq,
          by simpa using hlt⟩
  | some r =>
      rw [isClash]
      have hcv : clashValues xyz atoms (some r) =
          (clashDistances xyz atoms).map (fun row => row.map (fun e => e - r)) := rfl
      rw [hcv, clashDistances]
      constructor
      · rintro ⟨row', hrow', e, he, hlt⟩
        rcases List.mem_map.mp hrow' with ⟨row, hrow, rfl⟩
        rcases List.mem_map.mp hrow with ⟨p, hp, rfl⟩
        rcases List.mem_map.mp he with ⟨x, hx, rfl⟩
        rcases List.mem_map.mp hx with ⟨q, hq, rfl⟩
        exact ⟨p, hp, q, hq, hlt⟩
      · rintro ⟨p, hp, q, hq, hlt⟩
        refine ⟨(atoms.map (fun q => euclideanDistance p q)).map (fun e => e - r),
          ?_, euclideanDistance p q - r, ?_, hlt⟩
        · exact List.mem_map_of_mem _ (List.mem_map_of_mem _ hp)
        · exact List.mem_map_of_mem _ (List.mem_map_of_mem _ hq)

theorem euclideanDistance_unit :
    euclideanDistance (⟨0, 0, 0⟩ : V3) ⟨1, 0, 0⟩ = 1 := by
  have hsub : (⟨1, 0, 0⟩ : V3) - ⟨0, 0, 0⟩ = ⟨1, 0, 0⟩ := by
    ext <;> simp
  have hd : dotp (⟨1, 0, 0⟩ : V3) ⟨1, 0, 0⟩ = 1 := by
    simp [dotp]
  rw [euclideanDistance, hsub, vnorm, hd, Real.sqrt_one]

/-- C8: `is_clash` is true iff some pairwise Euclidean distance between a
tested point and a reference point, minus the exclusion radius (0 when
omitted), is strictly negative; for one point at distance 1.0 from a single
reference point it returns true with radius 1.5 and false with radius
0.5. -/
theorem is_clash_characterization :
    (∀ (xyz atoms : List V3) (radius : Option ℝ),
      isClash xyz atoms radius ↔
        ∃ p ∈ xyz, ∃ q ∈ atoms, euclideanDistance p q - radius.getD 0 < 0) ∧
    isClash [⟨0, 0, 0⟩] [⟨1, 0, 0⟩] (some 1.5) ∧
    ¬isClash [⟨0, 0, 0⟩] [⟨1, 0, 0⟩] (some 0.5) := by
  refine ⟨isClash_iff, ?_, ?_⟩
  · rw [isClash_iff]
    refine ⟨⟨0, 0, 0⟩, List.mem_singleton.mpr rfl, ⟨1, 0, 0⟩,
      List.mem_singleton.mpr rfl, ?_⟩
    rw [euclideanDistance_unit]
    norm_num
  · rw [isClash_iff]
    rintro ⟨p, hp, q, hq, hlt⟩
    rw [List.mem_singleton] at hp hq
    subst hp
    subst hq
    rw [euclideanDistance_unit] at hlt
    norm_num at hlt

/-- C7: each per-depth list of `neighbor_atoms` is the breadth-first
discovery order stably reordered with all non-hydrogen atoms first, and with
`hydrogen = False` atoms below the atomic-number threshold are excluded from
expansion entirely — no level beyond depth 0 contains one. -/
theorem neighbor_atoms_ordering (adj : ℕ → List ℕ) (num : ℕ → ℕ)
    (startIndex depth : ℕ) (hydrogen : Bool) :
    neighborAtoms adj num startIndex depth hydrogen =
      (bfsLevels adj num (if hydrogen then 1 else 2) depth [startIndex]
        (fun _ => false)).map
        (fun lv => lv.filter (fun a => !(num a == 1)) ++
          lv.filter (fun a => num a == 1)) ∧
    (∀ d lv, 1 ≤ d →
      (neighborAtoms adj num startIndex depth false).get? d = some lv →
      ∀ a ∈ lv, 2 ≤ num a) := by
  constructor
  · simp only [neighborAtoms]
    congr 1
    funext lv
    exact pushAtomToEnd_single num lv 1
  · intro d lv hd hget a ha
    obtain ⟨i, rfl⟩ : ∃ i, d = i + 1 := ⟨d - 1, by omega⟩
    simp only [neighborAtoms, Bool.if_false_left] at hget
    rw [List.get?_map] at hget
    rcases Option.map_eq_some'.mp hget with ⟨lv0, hlv0, rfl⟩
    have hkeep := bfsLevels_tail_keep adj num 2 depth [startIndex]
      (fun _ => false) i lv0 (by simpa using hlv0)
    have ha0 : a ∈ lv0 := by
      rw [pushAtomToEnd_single] at ha
      rcases List.mem_append.mp ha with h | h
      · exact List.mem_of_mem_filter h
      · exact List.mem_of_mem_filter h
    exact hkeep a ha0

/-- Witness for C7 on a three-atom container (a heavy start atom bonded to
one hydrogen and one heavy atom): with `hydrogen = False` the depth-1 level
contains only the heavy neighbor. -/
theorem neighbor_atoms_ordering_witness :
    ((neighborAtoms (fun i => if i = 0 then [1, 2] else if i ≤ 2 then [0] else [])
        (fun i => if i = 1 then 1 else 6) 0 1 false).get? 1 = some [2] ∧
      (1 : ℕ) ≤ 1 ∧ ∀ a ∈ [2], 2 ≤ (fun i => if i = 1 then 1 else 6) a) :=
  ⟨by decide, le_refl 1,
    (neighbor_atoms_ordering (fun i => if i = 0 then [1, 2] else if i ≤ 2 then [0] else [])
        (fun i => if i = 1 then 1 else 6) 0 1 false).2 1 [2] (le_refl 1)
      (by decide)⟩

/-- Invariant of the discovery pass: every accumulated row's (1-based) atom
index is marked visited, rows of the same atom agree on role and pattern
name, and no row carries the `None` role. -/
def DiscoveryInv (st : DiscoveryState) : Prop :=
  (∀ r ∈ st.2.1, st.1 (r.atomI + 1) = true) ∧
  (∀ r1 ∈ st.2.1, ∀ r2 ∈ st.2.1, r1.atomI = r2.atomI →
    r1.anchorType = r2.anchorType ∧ r1.anchorName = r2.anchorName) ∧
  (∀ r ∈ st.2.1, r.anchorType ≠ none)

theorem processMatch_inv (coords : ℕ → V3) (nbrs : ℕ → List (List V3))
    (ty : AtomTypeDef) (name : String) (st : DiscoveryState) (idx : ℕ)
    (hidx : 1 ≤ idx) (hinv : DiscoveryInv st) :
    DiscoveryInv (processMatch coords nbrs ty name st idx) := by
  obtain ⟨visited, data, warns⟩ := st
  obtain ⟨ha, hb, hc⟩ := hinv
  rw [processMatch]
  by_cases hcond : hbRole ty.hbTypeNum = none ∧ visited idx = false
  · rw [if_pos hcond, if_neg (by simp)]
    refine ⟨?_, hb, hc⟩
    intro r hr
    by_cases hri : r.atomI + 1 = idx
    · simp [hri]
    · simpa [hri] using ha r hr
  · rw [if_neg hcond]
    by_cases hvis : visited idx = false
    · rw [if_pos hvis]
      have hrole : hbRole ty.hbTypeNum ≠ none := by
        intro hnone
        exact hcond ⟨hnone, hvis⟩
      cases hhb : hbVectors (coords (idx - 1)) ty.hyb ty.nWater ty.hbLength
          (nbrs (idx - 1)) with
      | ok vs =>
          refine ⟨?_, ?_, ?_⟩
          · intro r hr
            rcases List.mem_append.mp hr with hr | hr
            · by_cases hri : r.atomI + 1 = idx
              · simp [hri]
              · simpa [hri] using ha r hr
            · rcases List.mem_map.mp hr with ⟨v, _, rfl⟩
              simp [Nat.sub_add_cancel hidx]
          · have hnewidx : ∀ r ∈ vs.map
                (fun v => (⟨idx - 1, v, hbRole ty.hbTypeNum, name⟩ : AnchorRow)),
                r.atomI = idx - 1 ∧ r.anchorType = hbRole ty.hbTypeNum ∧
                  r.anchorName = name := by
              intro r hr
              rcases List.mem_map.mp hr with ⟨v, _, rfl⟩
              exact ⟨rfl, rfl, rfl⟩
            have holdnew : ∀ r ∈ data, r.atomI ≠ idx - 1 := by
              intro r hr heq
              have h2 : visited (r.atomI + 1) = true := ha r hr
              rw [heq, Nat.sub_add_cancel hidx, hvis] at h2
              simp at h2
            intro r1 hr1 r2 hr2 heq
            rcases List.mem_append.mp hr1 with hr1 | hr1 <;>
              rcases List.mem_append.mp hr2 with hr2 | hr2
            · exact hb r1 hr1 r2 hr2 heq
            · exact absurd (heq.trans (hnewidx r2 hr2).1) (holdnew r1 hr1)
            · exact absurd (heq.symm.trans (hnewidx r1 hr1).1) (holdnew r2 hr2)
            · rw [(hnewidx r1 hr1).2.1, (hnewidx r2 hr2).2.1,
                (hnewidx r1 hr1).2.2, (hnewidx r2 hr2).2.2]
              exact ⟨rfl, rfl⟩
          · intro r hr
            rcases List.mem_append.mp hr with hr | hr
            · exact hc r hr
            · rcases List.mem_map.mp hr with ⟨v, _, rfl⟩
              exact hrole
      | error e =>
          refine ⟨?_, hb, hc⟩
          intro r hr
          by_cases hri : r.atomI + 1 = idx
          · simp [hri]
          · simpa [hri] using ha r hr
    · rw [if_neg hvis]
      exact ⟨ha, hb, hc⟩

theorem foldl_processMatch_inv (coords : ℕ → V3) (nbrs : ℕ → List (List V3))
    (ty : AtomTypeDef) (name : String) :
    ∀ (ms : List ℕ) (st : DiscoveryState), (∀ i ∈ ms, 1 ≤ i) →
      DiscoveryInv st →
      DiscoveryInv (ms.foldl (processMatch coords nbrs ty name) st) := by
  intro ms
  induction ms with
  | nil => intro st _ hinv; exact hinv
  | cons i ms ih =>
      intro st hpos hinv
      refine ih _ (fun j hj => hpos j (List.mem_cons_of_mem i hj)) ?_
      exact processMatch_inv coords nbrs ty name st i
        (hpos i (List.mem_cons_self i ms)) hinv

theorem foldl_processPattern_inv (coords : ℕ → V3) (nbrs : ℕ → List (List V3)) :
    ∀ (ps : List PatternDef) (st : DiscoveryState),
      (∀ p ∈ ps, ∀ i ∈ p.pmatches, 1 ≤ i) → DiscoveryInv st →
      DiscoveryInv (ps.foldl (processPattern coords nbrs) st) := by
  intro ps
  induction ps with
  | nil => intro st _ hinv; exact hinv
  | cons p ps ih =>
      intro st hpos hinv
      refine ih _ (fun q hq => hpos q (List.mem_cons_of_mem p hq)) ?_
      exact foldl_processMatch_inv coords nbrs p.ty p.pname p.pmatches st
        (hpos p (List.mem_cons_self p ps)) hinv

/-- C5: in one anchor-discovery pass, an atom index is assigned at most one
hydrogen-bond role — all rows for the same atom agree on role and pattern
name (first successful pattern wins), and `None`-role patterns only block:
they never contribute a row. -/
theorem guess_anchors_at_most_one_role (coords : ℕ → V3)
    (nbrs : ℕ → List (List V3)) (patterns : List PatternDef)
    (hpos : ∀ p ∈ patterns, ∀ i ∈ p.pmatches, 1 ≤ i) :
    (∀ r1 ∈ (guessHydrogenBondAnchors coords nbrs patterns).1,
     ∀ r2 ∈ (guessHydrogenBondAnchors coords nbrs patterns).1,
       r1.atomI = r2.atomI →
       r1.anchorType = r2.anchorType ∧ r1.anchorName = r2.anchorName) ∧
    (∀ r ∈ (guessHydrogenBondAnchors coords nbrs patterns).1,
      r.anchorType ≠ none) := by
  have hinv := foldl_processPattern_inv coords nbrs patterns.reverse
    (fun _ => false, [], [])
    (fun p hp => hpos p (List.mem_reverse.mp hp))
    ⟨by simp, by simp, by simp⟩
  obtain ⟨_, hb, hc⟩ := hinv
  have hmem : ∀ r, r ∈ (guessHydrogenBondAnchors coords nbrs patterns).1 ↔
      r ∈ (patterns.reverse.foldl (processPattern coords nbrs)
        (fun _ => false, [], [])).2.1 := by
    intro r
    rw [guessHydrogenBondAnchors]
    exact (List.mergeSort_perm _ _).mem_iff
  constructor
  · intro r1 hr1 r2 hr2 heq
    exact hb r1 ((hmem r1).mp hr1) r2 ((hmem r2).mp hr2) heq
  · intro r hr
    exact hc r ((hmem r).mp hr)

/-- Witness for C5 with two patterns both matching atom 1. -/
theorem guess_anchors_at_most_one_role_witness :
    ((∀ p ∈ [(⟨"P1", ⟨1, 1, 1, 1⟩, [1]⟩ : PatternDef),
        ⟨"P2", ⟨1, 1, 1, 2⟩, [1, 2]⟩], ∀ i ∈ p.pmatches, 1 ≤ i) ∧
      ∀ r1 ∈ (guessHydrogenBondAnchors (fun _ => ⟨0, 0, 0⟩) (fun _ => [])
          [⟨"P1", ⟨1, 1, 1, 1⟩, [1]⟩, ⟨"P2", ⟨1, 1, 1, 2⟩, [1, 2]⟩]).1,
      ∀ r2 ∈ (guessHydrogenBondAnchors (fun _ => ⟨0, 0, 0⟩) (fun _ => [])
          [⟨"P1", ⟨1, 1, 1, 1⟩, [1]⟩, ⟨"P2", ⟨1, 1, 1, 2⟩, [1, 2]⟩]).1,
        r1.atomI = r2.atomI →
        r1.anchorType = r2.anchorType ∧ r1.anchorName = r2.anchorName) :=
  ⟨by simp, (guess_anchors_at_most_one_role (fun _ => ⟨0, 0, 0⟩) (fun _ => [])
      [⟨"P1", ⟨1, 1, 1, 1⟩, [1]⟩, ⟨"P2", ⟨1, 1, 1, 2⟩, [1, 2]⟩] (by simp)).1⟩

theorem hbVectors_empty_indexError :
    hbVectors ⟨0, 0, 0⟩ 1 1 1 [] = Except.error HbErr.indexError := rfl

theorem hbVectors_self_neighbor_degenerate :
    hbVectors ⟨0, 0, 0⟩ 1 1 1 [[], [⟨0, 0, 0⟩]] =
      Except.error HbErr.degenerateVector := by
  rw [hbVectors_def]
  rw [show getNbr [[], [⟨0, 0, 0⟩]] 1 0 = Except.ok ⟨0, 0, 0⟩ from rfl,
    exceptBind_ok_apply]
  rw [if_pos (⟨rfl, rfl⟩ : (1 : ℕ) = 1 ∧ (1 : ℕ) = 1)]
  have hp : (⟨0, 0, 0⟩ : V3) + vector ⟨0, 0, 0⟩ ⟨0, 0, 0⟩ = ⟨0, 0, 0⟩ := by
    rw [vector]
    ext <;> simp
  rw [hp, hbFinish, List.mapM_cons]
  have hres : resizeVectorE (if (0 : ℝ) ≠ 0 then
      rotatePoint ⟨0, 0, 0⟩ ⟨0, 0, 0⟩ ⟨0, 0, 0⟩ 0 else ⟨0, 0, 0⟩) 1 ⟨0, 0, 0⟩ =
      Except.error HbErr.degenerateVector := by
    rw [if_neg (not_not_intro rfl), resizeVectorE, resizeVector]
    have hv : vector (⟨0, 0, 0⟩ : V3) ⟨0, 0, 0⟩ = 0 := by
      rw [vector]
      ext <;> simp
    rw [hv, normalize, if_pos rfl]
    rfl
  rw [hres]
  rfl

/-- Effect of one failing match on the discovery state: the atom is marked
visited, the warning `(idx, name)` is appended, and no rows are added. -/
theorem processMatch_fail_step (coords : ℕ → V3) (nbrs : ℕ → List (List V3))
    (ty : AtomTypeDef) (name : String) (visited : ℕ → Bool)
    (data : List AnchorRow) (warns : List (ℕ × String)) (idx : ℕ) (e : HbErr)
    (hrole : hbRole ty.hbTypeNum ≠ none)
    (hvis : visited idx = false)
    (herr : hbVectors (coords (idx - 1)) ty.hyb ty.nWater ty.hbLength
      (nbrs (idx - 1)) = Except.error e) :
    processMatch coords nbrs ty name (visited, data, warns) idx =
      ((fun j => if j = idx then true else visited j), data,
        warns ++ [(idx, name)]) := by
  rw [processMatch]
  dsimp only
  rw [if_neg (fun hc : hbRole ty.hbTypeNum = none ∧ visited idx = false =>
    hrole hc.1)]
  rw [if_pos hvis, herr]

/-- One failing atom inside a discovery pass over a single donor pattern
leaves no anchor rows and exactly the warning entry `(1, "X")`, for any
failure kind. -/
theorem guess_single_donor_fail (nbrs : ℕ → List (List V3)) (e : HbErr)
    (herr : hbVectors ⟨0, 0, 0⟩ 1 1 1 (nbrs 0) = Except.error e) :
    guessHydrogenBondAnchors (fun _ => ⟨0, 0, 0⟩) nbrs
      [⟨"X", ⟨1, 1, 1, 1⟩, [1]⟩] = ([], [(1, "X")]) := by
  have hstep := processMatch_fail_step (fun _ => ⟨0, 0, 0⟩) nbrs
    ⟨1, 1, 1, 1⟩ "X" (fun _ => false) [] [] 1 e
    (fun hc => by simp [hbRole] at hc) rfl herr
  rw [guessHydrogenBondAnchors]
  simp only [List.reverse_cons, List.reverse_nil, List.nil_append,
    List.foldl_cons, List.foldl_nil]
  rw [processPattern]
  dsimp only
  simp only [List.foldl_cons, List.foldl_nil]
  rw [hstep]
  simp

/-- C6 counterexample: two containers on which the same atom fails with
different error kinds (an index error and a degenerate vector) produce
identical discovery output — the recorded entry carries the atom index and
pattern name only, so the error kind is not recorded. -/
theorem guess_anchors_error_kind_lost :
    guessHydrogenBondAnchors (fun _ => ⟨0, 0, 0⟩) (fun _ => [])
        [⟨"X", ⟨1, 1, 1, 1⟩, [1]⟩] = ([], [(1, "X")]) ∧
    guessHydrogenBondAnchors (fun _ => ⟨0, 0, 0⟩) (fun _ => [[], [⟨0, 0, 0⟩]])
        [⟨"X", ⟨1, 1, 1, 1⟩, [1]⟩] = ([], [(1, "X")]) ∧
    hbVectors ⟨0, 0, 0⟩ 1 1 1 [] = Except.error HbErr.indexError ∧
    hbVectors ⟨0, 0, 0⟩ 1 1 1 [[], [⟨0, 0, 0⟩]] =
      Except.error HbErr.degenerateVector ∧
    HbErr.indexError ≠ HbErr.degenerateVector :=
  ⟨guess_single_donor_fail (fun _ => []) HbErr.indexError
      hbVectors_empty_indexError,
    guess_single_donor_fail (fun _ => [[], [⟨0, 0, 0⟩]]) HbErr.degenerateVector
      hbVectors_self_neighbor_degenerate,
    hbVectors_empty_indexError, hbVectors_self_neighbor_degenerate,
    by simp⟩

/-- C6 (amended): a geometry failure during discovery is caught for that atom
only — the atom is marked visited, a warning entry recording its atom index
and pattern/type name (but not the error kind) is appended, no anchor rows
are added — and the iteration over the remaining matches of the pattern
continues from that state. -/
theorem guess_anchors_failure_recorded (coords : ℕ → V3)
    (nbrs : ℕ → List (List V3)) (ty : AtomTypeDef) (name : String)
    (visited : ℕ → Bool) (data : List AnchorRow) (warns : List (ℕ × String))
    (idx : ℕ) (e : HbErr)
    (hrole : hbRole ty.hbTypeNum ≠ none)
    (hvis : visited idx = false)
    (herr : hbVectors (coords (idx - 1)) ty.hyb ty.nWater ty.hbLength
      (nbrs (idx - 1)) = Except.error e) :
    processMatch coords nbrs ty name (visited, data, warns) idx =
      ((fun j => if j = idx then true else visited j), data,
        warns ++ [(idx, name)]) ∧
    ∀ (st : DiscoveryState) (pre post : List ℕ),
      processPattern coords nbrs st ⟨name, ty, pre ++ idx :: post⟩ =
        post.foldl (processMatch coords nbrs ty name)
          (processMatch coords nbrs ty name
            (pre.foldl (processMatch coords nbrs ty name) st) idx) := by
  constructor
  · exact processMatch_fail_step coords nbrs ty name visited data warns idx e
      hrole hvis herr
  · intro st pre post
    rw [processPattern]
    simp only [List.foldl_append, List.foldl_cons]

/-- Witness for C6's amended theorem at the concrete failing container. -/
theorem guess_anchors_failure_recorded_witness :
    (hbRole (⟨1, 1, 1, 1⟩ : AtomTypeDef).hbTypeNum ≠ none ∧
      (fun _ : ℕ => false) 1 = false ∧
      hbVectors ((fun _ : ℕ => (⟨0, 0, 0⟩ : V3)) 0) 1 1 1
        ((fun _ : ℕ => ([] : List (List V3))) 0) =
        Except.error HbErr.indexError) ∧
    processMatch (fun _ => ⟨0, 0, 0⟩) (fun _ => []) ⟨1, 1, 1, 1⟩ "X"
        (fun _ => false, [], []) 1 =
      ((fun j => if j = 1 then true else false), [], [(1, "X")]) :=
  ⟨⟨by simp [hbRole], rfl, hbVectors_empty_indexError⟩, by
    have h := (guess_anchors_failure_recorded (fun _ => ⟨0, 0, 0⟩)
      (fun _ => []) ⟨1, 1, 1, 1⟩ "X" (fun _ => false) [] [] 1 HbErr.indexError
      (by simp [hbRole]) rfl hbVectors_empty_indexError).1
    simpa using h⟩

theorem rotateSites_get (oxygenXyz r : V3) (θ : ℝ) (refId : ℕ) :
    ∀ (l : List V3) (i j : ℕ),
      (rotateSites oxygenXyz r θ refId i l).get? j =
        (l.get? j).map (fun s => if i + j = 0 ∨ i + j = refId then s
          else rotatePoint s oxygenXyz r θ) := by
  intro l
  induction l with
  | nil => intro i j; simp [rotateSites]
  | cons s rest ih =>
      intro i j
      cases j with
      | zero => simp [rotateSites]
      | succ j =>
          rw [rotateSites]
          simp only [List.get?_cons_succ]
          rw [ih (i + 1) j]
          have harith : i + 1 + j = i + (j + 1) := by omega
          rw [harith]

theorem rotateSites_zero (oxygenXyz r : V3) (refId : ℕ) :
    ∀ (l : List V3) (i : ℕ), rotateSites oxygenXyz r 0 refId i l = l := by
  intro l
  induction l with
  | nil => intro i; rfl
  | cons s rest ih =>
      intro i
      rw [rotateSites, rotatePoint_zero, ite_self, ih (i + 1)]

theorem rotateSites_neg_rotateSites (oxygenXyz r : V3) (θ : ℝ) (refId : ℕ)
    (hax : r - oxygenXyz ≠ 0) :
    ∀ (l : List V3) (i : ℕ),
      rotateSites oxygenXyz r (-θ) refId i
        (rotateSites oxygenXyz r θ refId i l) = l := by
  intro l
  induction l with
  | nil => intro i; rfl
  | cons s rest ih =>
      intro i
      rw [rotateSites, rotateSites]
      rw [ih (i + 1)]
      by_cases hcase : i = 0 ∨ i = refId
      · rw [if_pos hcase, if_pos hcase]
      · rw [if_neg hcase, if_neg hcase,
          rotatePoint_neg_rotatePoint hax θ s]

/-- Explicit bind form of `waterRotate`. -/
theorem waterRotate_def (sites : List V3) (angle : ℝ) (refId : ℕ) :
    waterRotate sites angle refId =
      ((sites.get? 0).bind fun oxygenXyz =>
      (sites.get? refId).bind fun refXyz =>
      (normalize (vector refXyz oxygenXyz)).bind fun dir =>
      some (rotateSites oxygenXyz (oxygenXyz + dir) (radians angle) refId 0
        sites)) := rfl

/-- C9: for a five-site water, `rotate(angle, ref)` followed by
`rotate(-angle, ref)` restores every site to its original position exactly,
and neither call moves the oxygen or the reference site. -/
theorem water_rotate_roundtrip (sites sites' : List V3) (angle : ℝ)
    (refId : ℕ) (h5 : sites.length = 5)
    (h : waterRotate sites angle refId = some sites') :
    waterRotate sites' (-angle) refId = some sites ∧
      sites'.get? 0 = sites.get? 0 ∧ sites'.get? refId = sites.get? refId := by
  rw [waterRotate_def] at h
  rcases Option.bind_eq_some.mp h with ⟨oxy, hoxy, h⟩
  rcases Option.bind_eq_some.mp h with ⟨ref, href, h⟩
  rcases Option.bind_eq_some.mp h with ⟨dir, hdir, h⟩
  have hsites' : sites' =
      rotateSites oxy (oxy + dir) (radians angle) refId 0 sites :=
    (Option.some.inj h).symm
  obtain ⟨hne, hdirv⟩ := normalize_eq_some hdir
  have haxne : (oxy + dir) - oxy ≠ 0 := by
    rw [sub_add_cancel_v3, hdirv]
    exact unitv_ne_zero hne
  have hget0 : sites'.get? 0 = sites.get? 0 := by
    rw [hsites', rotateSites_get, hoxy, Option.map_some',
      if_pos (Or.inl rfl), ← hoxy]
  have hgetref : sites'.get? refId = sites.get? refId := by
    rw [hsites', rotateSites_get, href, Option.map_some',
      if_pos (Or.inr (Nat.zero_add refId)), ← href]
  refine ⟨?_, hget0, hgetref⟩
  rw [waterRotate_def, hget0, hoxy, Option.some_bind, hgetref, href,
    Option.some_bind, hdir, Option.some_bind, hsites', radians_neg,
    rotateSites_neg_rotateSites oxy (oxy + dir) (radians angle) refId haxne
      sites 0]

theorem waterRotate_zero_concrete :
    waterRotate [⟨0, 0, 0⟩, ⟨1, 0, 0⟩, ⟨0, 1, 0⟩, ⟨0, 0, 1⟩, ⟨1, 1, 0⟩] 0 1 =
      some [⟨0, 0, 0⟩, ⟨1, 0, 0⟩, ⟨0, 1, 0⟩, ⟨0, 0, 1⟩, ⟨1, 1, 0⟩] := by
  rw [waterRotate_def]
  rw [show ([(⟨0, 0, 0⟩ : V3), ⟨1, 0, 0⟩, ⟨0, 1, 0⟩, ⟨0, 0, 1⟩,
      ⟨1, 1, 0⟩]).get? 0 = some ⟨0, 0, 0⟩ from rfl, Option.some_bind]
  rw [show ([(⟨0, 0, 0⟩ : V3), ⟨1, 0, 0⟩, ⟨0, 1, 0⟩, ⟨0, 0, 1⟩,
      ⟨1, 1, 0⟩]).get? 1 = some ⟨1, 0, 0⟩ from rfl, Option.some_bind]
  have hv : vector (⟨1, 0, 0⟩ : V3) ⟨0, 0, 0⟩ = ⟨-1, 0, 0⟩ := by
    rw [vector]
    ext <;> simp
  rw [hv, normalize_neg_one_vec, Option.some_bind]
  rw [radians_zero, rotateSites_zero]

/-- Witness for C9 at a concrete five-site water and angle 0. -/
theorem water_rotate_roundtrip_witness :
    (([(⟨0, 0, 0⟩ : V3), ⟨1, 0, 0⟩, ⟨0, 1, 0⟩, ⟨0, 0, 1⟩,
        ⟨1, 1, 0⟩]).length = 5 ∧
      waterRotate [⟨0, 0, 0⟩, ⟨1, 0, 0⟩, ⟨0, 1, 0⟩, ⟨0, 0, 1⟩, ⟨1, 1, 0⟩] 0 1 =
        some [⟨0, 0, 0⟩, ⟨1, 0, 0⟩, ⟨0, 1, 0⟩, ⟨0, 0, 1⟩, ⟨1, 1, 0⟩]) ∧
    (waterRotate [⟨0, 0, 0⟩, ⟨1, 0, 0⟩, ⟨0, 1, 0⟩, ⟨0, 0, 1⟩, ⟨1, 1, 0⟩]
        (-0) 1 =
      some [⟨0, 0, 0⟩, ⟨1, 0, 0⟩, ⟨0, 1, 0⟩, ⟨0, 0, 1⟩, ⟨1, 1, 0⟩] ∧
      ([(⟨0, 0, 0⟩ : V3), ⟨1, 0, 0⟩, ⟨0, 1, 0⟩, ⟨0, 0, 1⟩,
        ⟨1, 1, 0⟩]).get? 0 =
        ([(⟨0, 0, 0⟩ : V3), ⟨1, 0, 0⟩, ⟨0, 1, 0⟩, ⟨0, 0, 1⟩,
          ⟨1, 1, 0⟩]).get? 0 ∧
      ([(⟨0, 0, 0⟩ : V3), ⟨1, 0, 0⟩, ⟨0, 1, 0⟩, ⟨0, 0, 1⟩,
        ⟨1, 1, 0⟩]).get? 1 =
        ([(⟨0, 0, 0⟩ : V3), ⟨1, 0, 0⟩, ⟨0, 1, 0⟩, ⟨0, 0, 1⟩,
          ⟨1, 1, 0⟩]).get? 1) :=
  ⟨⟨rfl, waterRotate_zero_concrete⟩,
    water_rotate_roundtrip _ _ 0 1 rfl waterRotate_zero_concrete⟩

theorem dotp_sub_left (a b c : V3) : dotp (a - b) c = dotp a c - dotp b c := by
  simp only [dotp, V3.sub_x, V3.sub_y, V3.sub_z]
  ring

theorem dotp_sub_right (a b c : V3) : dotp a (b - c) = dotp a b - dotp a c := by
  simp only [dotp, V3.sub_x, V3.sub_y, V3.sub_z]
  ring

theorem unitv_of_unit {v : V3} (h : vnorm v = 1) : unitv v = v := by
  rw [unitv, h]
  ext <;> simp

theorem ne_zero_of_dotp_pos {v : V3} (h : 0 < dotp v v) : v ≠ 0 := by
  intro hz
  rw [hz] at h
  simp [dotp] at h

theorem resizeVector_isSome {p o : V3} (h : p - o ≠ 0) (d : ℝ) :
    resizeVector p d o = some (o + d • unitv (p - o)) := by
  rw [resizeVector, vector, normalize_of_ne_zero h, Option.map_some']

/-- Dot product of two points resized to lengths `d1`, `d2` from `o`, both
starting at squared distance `W` from `o`. -/
theorem resize_pair_dotp {o p1 p2 u1 u2 : V3} {d1 d2 W : ℝ} (hW : 0 < W)
    (h1 : dotp (p1 - o) (p1 - o) = W) (h2 : dotp (p2 - o) (p2 - o) = W)
    (hr1 : resizeVector p1 d1 o = some u1)
    (hr2 : resizeVector p2 d2 o = some u2) :
    dotp (u1 - o) (u2 - o) = d1 * d2 * W⁻¹ * dotp (p1 - o) (p2 - o) := by
  rw [resizeVector_sub hr1, resizeVector_sub hr2, dotp_smul_left,
    dotp_smul_right]
  have hn1 : vnorm (p1 - o) = Real.sqrt W := by rw [vnorm, h1]
  have hn2 : vnorm (p2 - o) = Real.sqrt W := by rw [vnorm, h2]
  have hsq : Real.sqrt W * Real.sqrt W = W := Real.mul_self_sqrt hW.le
  have hsne : Real.sqrt W ≠ 0 := by
    intro hzero
    rw [hzero, mul_zero] at hsq
    exact absurd hsq.symm (ne_of_gt hW)
  rw [hn1, hn2, ← hsq]
  field_simp
  ring

theorem radians_pos {deg : ℝ} (h0 : 0 < deg) : 0 < radians deg := by
  rw [radians]
  have := Real.pi_pos
  positivity

theorem radians_lt_pi {deg : ℝ} (h180 : deg < 180) : radians deg < Real.pi := by
  rw [radians, div_lt_iff (by norm_num : (0 : ℝ) < 180)]
  nlinarith [Real.pi_pos]

theorem cos_radians_lt_one {deg : ℝ} (h0 : 0 < deg) (h180 : deg < 180) :
    Real.cos (radians deg) < 1 := by
  have hp := radians_pos h0
  have hpi := radians_lt_pi h180
  have h := Real.strictAntiOn_cos
    (Set.mem_Icc.mpr ⟨le_refl 0, Real.pi_pos.le⟩)
    (Set.mem_Icc.mpr ⟨hp.le, hpi.le⟩) hp
  simpa [Real.cos_zero] using h

theorem neg_one_lt_cos_radians {deg : ℝ} (h0 : 0 < deg) (h180 : deg < 180) :
    -1 < Real.cos (radians deg) := by
  have hp := radians_pos h0
  have hpi := radians_lt_pi h180
  have h := Real.strictAntiOn_cos
    (Set.mem_Icc.mpr ⟨hp.le, hpi.le⟩)
    (Set.mem_Icc.mpr ⟨Real.pi_pos.le, le_refl Real.pi⟩) hpi
  simpa [Real.cos_pi] using h

/-- Explicit bind form of `buildTip5p`. -/
theorem buildTip5p_def (oxygenXyz anchorXyz : V3) (t : String) :
    buildTip5p oxygenXyz anchorXyz t =
      ((normalize (vector oxygenXyz anchorXyz)).bind fun v =>
      (resizeVector (rotatePoint (oxygenXyz + tip5pD t 0 • v) oxygenXyz
          (oxygenXyz + perpendicularVector v) (radians (tip5pA t 0)))
          (tip5pD t 1) oxygenXyz).bind fun a2 =>
      (normalize (vector (oxygenXyz + tip5pD t 0 • v) a2)).bind fun rdir =>
      (resizeVector (rotatePoint
          (atomToMove oxygenXyz [oxygenXyz + tip5pD t 0 • v, a2]) oxygenXyz
          (oxygenXyz + rdir) (radians (tip5pA t 1 / 2)))
          (tip5pD t 3) oxygenXyz).bind fun a3 =>
      (resizeVector (rotatePoint
          (atomToMove oxygenXyz [oxygenXyz + tip5pD t 0 • v, a2]) oxygenXyz
          (oxygenXyz + rdir) (-radians (tip5pA t 1 / 2)))
          (tip5pD t 3) oxygenXyz).bind fun a4 =>
      some ((if t = "acceptor" then [oxygenXyz + tip5pD t 0 • v, a2, a3, a4]
             else [a3, a4, oxygenXyz + tip5pD t 0 • v, a2]).zip tip5pTypes)) :=
  rfl

theorem sub_eq_zero_v3 {a b : V3} (h : a - b = 0) : a = b := by
  rw [V3.eq_iff] at h ⊢
  simp only [V3.sub_x, V3.sub_y, V3.sub_z, V3.zero_x, V3.zero_y, V3.zero_z] at h
  exact ⟨by linarith [h.1], by linarith [h.2.1], by linarith [h.2.2]⟩

theorem dotp_sub_expand (X Y : V3) :
    dotp (X - Y) (X - Y) = dotp X X - 2 * dotp X Y + dotp Y Y := by
  simp only [dotp, V3.sub_x, V3.sub_y, V3.sub_z]
  ring

theorem dotp_sub_smul_add (X Y : V3) (c : ℝ) :
    dotp (X - Y) (c • (Y + X)) = c * (dotp X X - dotp Y Y) := by
  simp only [dotp, V3.sub_x, V3.sub_y, V3.sub_z, V3.smul_x, V3.smul_y,
    V3.smul_z, V3.add_x, V3.add_y, V3.add_z]
  ring

theorem dotp_smul_add_self (X Y : V3) (c : ℝ) :
    dotp (c • (X + Y)) (c • (X + Y)) =
      c ^ 2 * (dotp X X + 2 * dotp X Y + dotp Y Y) := by
  simp only [dotp, V3.smul_x, V3.smul_y, V3.smul_z, V3.add_x, V3.add_y,
    V3.add_z]
  ring

/-- Full geometric content of `build_tip5p`: for any role, the four emitted
satellites come in emission order as two sites at 0.9572 Å (labelled `HD`)
followed by two sites at 0.7 Å (labelled `Lp`), with the angle between the
first pair equal to 104.52° and between the second pair equal to 109.47°
(angles expressed through the dot products). -/
theorem buildTip5p_spec (oxygenXyz anchorXyz : V3) (t : String)
    (hne : anchorXyz ≠ oxygenXyz) :
    ∃ s1 s2 s3 s4 : V3,
      buildTip5p oxygenXyz anchorXyz t =
        some [(s1, "HD"), (s2, "HD"), (s3, "Lp"), (s4, "Lp")] ∧
      euclideanDistance oxygenXyz s1 = 0.9572 ∧
      euclideanDistance oxygenXyz s2 = 0.9572 ∧
      euclideanDistance oxygenXyz s3 = 0.7 ∧
      euclideanDistance oxygenXyz s4 = 0.7 ∧
      dotp (s1 - oxygenXyz) (s2 - oxygenXyz) =
        0.9572 ^ 2 * Real.cos (radians 104.52) ∧
      dotp (s3 - oxygenXyz) (s4 - oxygenXyz) =
        0.7 ^ 2 * Real.cos (radians 109.47) := by
  obtain ⟨hd01, hd0pos, hd3pos, ha0l, ha0u, ha1l, ha1u⟩ :
      tip5pD t 1 = tip5pD t 0 ∧ 0 < tip5pD t 0 ∧ 0 < tip5pD t 3 ∧
        0 < tip5pA t 0 ∧ tip5pA t 0 < 180 ∧
        0 < tip5pA t 1 ∧ tip5pA t 1 < 180 := by
    by_cases hacc : t = "acceptor" <;>
      refine ⟨?_, ?_, ?_, ?_, ?_, ?_, ?_⟩ <;>
        norm_num [tip5pD, tip5pA, hacc]
  set O := oxygenXyz with hO_def
  have hvecne : vector O anchorXyz ≠ 0 := by
    rw [vector]
    intro hz
    exact hne (sub_eq_zero_v3 hz)
  set v := unitv (vector O anchorXyz) with hv_def
  have hv : normalize (vector O anchorXyz) = some v := normalize_of_ne_zero hvecne
  have hv1 : dotp v v = 1 := dotp_unitv_self hvecne
  have hvne : v ≠ 0 := unitv_ne_zero hvecne
  set pv := perpendicularVector v with hpv_def
  have hpvne : pv ≠ 0 := by
    rw [hpv_def]
    exact perpendicularVector_ne_zero hvne
  have hpvv : dotp pv v = 0 := by
    rw [hpv_def]
    exact perpendicularVector_dotp v
  set θ₀ := radians (tip5pA t 0) with hθ₀_def
  set a1 := O + tip5pD t 0 • v with ha1_def
  have hu : a1 - O = tip5pD t 0 • v := sub_add_cancel_v3 O _
  set k1 := unitv pv with hk1_def
  have hk1 : dotp k1 k1 = 1 := dotp_unitv_self hpvne
  have hk1u : dotp k1 (a1 - O) = 0 := by
    rw [hu, dotp_smul_right, hk1_def, unitv, dotp_smul_left, hpvv]
    ring
  have hW1 : dotp (a1 - O) (a1 - O) = tip5pD t 0 ^ 2 := by
    rw [hu, dotp_smul_left, dotp_smul_right, hv1]
    ring
  have hW1pos : 0 < tip5pD t 0 ^ 2 := pow_pos hd0pos 2
  have hm2eq : rotatePoint a1 O (O + pv) θ₀ - O = rodrigues k1 θ₀ (a1 - O) := by
    rw [rotatePoint_sub, sub_add_cancel_v3, hk1_def]
  have hm2W : dotp (rotatePoint a1 O (O + pv) θ₀ - O)
      (rotatePoint a1 O (O + pv) θ₀ - O) = tip5pD t 0 ^ 2 := by
    rw [hm2eq, dotp_rodrigues_same hk1 hk1u, hW1]
  have hm2ne : rotatePoint a1 O (O + pv) θ₀ - O ≠ 0 :=
    ne_zero_of_dotp_pos (by rw [hm2W]; exact hW1pos)
  set a2 := O + tip5pD t 1 • unitv (rotatePoint a1 O (O + pv) θ₀ - O)
    with ha2_def
  have hra2 : resizeVector (rotatePoint a1 O (O + pv) θ₀) (tip5pD t 1) O =
      some a2 := by
    rw [ha2_def]
    exact resizeVector_isSome hm2ne _
  have hd1pos : 0 < tip5pD t 1 := hd01 ▸ hd0pos
  have hdista2 : euclideanDistance O a2 = tip5pD t 1 :=
    resizeVector_dist hd1pos.le hra2
  have hW2' : dotp (a2 - O) (a2 - O) = tip5pD t 1 ^ 2 := by
    have h1 : vnorm (a2 - O) = tip5pD t 1 := hdista2
    rw [← vnorm_sq, h1]
  have hdot12 : dotp (a1 - O) (a2 - O) =
      tip5pD t 0 * tip5pD t 1 * Real.cos θ₀ := by
    rw [resizeVector_sub hra2, dotp_smul_right]
    have hvnm2 : vnorm (rotatePoint a1 O (O + pv) θ₀ - O) = tip5pD t 0 :=
      vnorm_eq_of_dotp hd0pos.le hm2W
    have hdru : dotp (a1 - O) (rotatePoint a1 O (O + pv) θ₀ - O) =
        Real.cos θ₀ * tip5pD t 0 ^ 2 := by
      rw [dotp_comm, hm2eq, dotp_rodrigues_self hk1 hk1u, hW1]
    rw [hdru, hvnm2]
    field_simp
    ring
  have hd21 : vector a1 a2 = (a2 - O) - (a1 - O) := by
    rw [vector]
    ext <;> simp <;> ring
  have hdot2121 : dotp (vector a1 a2) (vector a1 a2) =
      2 * tip5pD t 0 ^ 2 * (1 - Real.cos θ₀) := by
    rw [hd21, dotp_sub_expand, hW2', hW1, dotp_comm (a2 - O) (a1 - O),
      hdot12, hd01]
    ring
  have hcos0lt : Real.cos θ₀ < 1 := by
    rw [hθ₀_def]
    exact cos_radians_lt_one ha0l ha0u
  have hcos0gt : -1 < Real.cos θ₀ := by
    rw [hθ₀_def]
    exact neg_one_lt_cos_radians ha0l ha0u
  have h21pos : 0 < dotp (vector a1 a2) (vector a1 a2) := by
    rw [hdot2121]
    nlinarith [hW1pos]
  have h21ne : vector a1 a2 ≠ 0 := ne_zero_of_dotp_pos h21pos
  set rdir := unitv (vector a1 a2) with hrdir_def
  have hrdir : normalize (vector a1 a2) = some rdir := normalize_of_ne_zero h21ne
  have hk2 : dotp rdir rdir = 1 := dotp_unitv_self h21ne
  have hrdirnorm : vnorm rdir = 1 := vnorm_unitv h21ne
  set pm := atomToMove O [a1, a2] with hpm_def
  have hw2 : pm - O = (-(1 / 2) : ℝ) • ((a1 - O) + (a2 - O)) := by
    rw [hpm_def, atomToMove, sub_add_cancel_v3, vmean]
    have hlen : ((([a1, a2] : List V3).length : ℕ) : ℝ) = 2 := by simp
    rw [hlen, vsum, vsum, vsum]
    ext <;> simp <;> ring
  have hk2w2 : dotp rdir (pm - O) = 0 := by
    rw [hrdir_def, unitv, dotp_smul_left]
    have hinner : dotp (vector a1 a2) (pm - O) = 0 := by
      rw [hd21, hw2, dotp_sub_smul_add, hW2', hW1, hd01]
      ring
    rw [hinner]
    ring
  have hW2 : dotp (pm - O) (pm - O) =
      tip5pD t 0 ^ 2 * (1 + Real.cos θ₀) / 2 := by
    rw [hw2, dotp_smul_add_self, hW1, hW2', hdot12, hd01]
    ring
  have hW2pos : 0 < dotp (pm - O) (pm - O) := by
    rw [hW2]
    nlinarith [hW1pos]
  set θh := radians (tip5pA t 1 / 2) with hθh_def
  have haxu : unitv (O + rdir - O) = rdir := by
    rw [sub_add_cancel_v3]
    exact unitv_of_unit hrdirnorm
  have hm3eq : rotatePoint pm O (O + rdir) θh - O =
      rodrigues rdir θh (pm - O) := by
    rw [rotatePoint_sub, haxu]
  have hm4eq : rotatePoint pm O (O + rdir) (-θh) - O =
      rodrigues rdir (-θh) (pm - O) := by
    rw [rotatePoint_sub, haxu]
  have hm3W : dotp (rotatePoint pm O (O + rdir) θh - O)
      (rotatePoint pm O (O + rdir) θh - O) = dotp (pm - O) (pm - O) := by
    rw [hm3eq, dotp_rodrigues_same hk2 hk2w2]
  have hm4W : dotp (rotatePoint pm O (O + rdir) (-θh) - O)
      (rotatePoint pm O (O + rdir) (-θh) - O) = dotp (pm - O) (pm - O) := by
    rw [hm4eq, dotp_rodrigues_same hk2 hk2w2]
  have hm3ne : rotatePoint pm O (O + rdir) θh - O ≠ 0 :=
    ne_zero_of_dotp_pos (by rw [hm3W]; exact hW2pos)
  have hm4ne : rotatePoint pm O (O + rdir) (-θh) - O ≠ 0 :=
    ne_zero_of_dotp_pos (by rw [hm4W]; exact hW2pos)
  set a3 := O + tip5pD t 3 • unitv (rotatePoint pm O (O + rdir) θh - O)
    with ha3_def
  have hra3 : resizeVector (rotatePoint pm O (O + rdir) θh) (tip5pD t 3) O =
      some a3 := by
    rw [ha3_def]
    exact resizeVector_isSome hm3ne _
  set a4 := O + tip5pD t 3 • unitv (rotatePoint pm O (O + rdir) (-θh) - O)
    with ha4_def
  have hra4 : resizeVector (rotatePoint pm O (O + rdir) (-θh)) (tip5pD t 3) O =
      some a4 := by
    rw [ha4_def]
    exact resizeVector_isSome hm4ne _
  have hdista3 : euclideanDistance O a3 = tip5pD t 3 :=
    resizeVector_dist hd3pos.le hra3
  have hdista4 : euclideanDistance O a4 = tip5pD t 3 :=
    resizeVector_dist hd3pos.le hra4
  have hdista1 : euclideanDistance O a1 = tip5pD t 0 := by
    show vnorm (a1 - O) = tip5pD t 0
    exact vnorm_eq_of_dotp hd0pos.le hW1
  have hdot34 : dotp (a3 - O) (a4 - O) =
      tip5pD t 3 ^ 2 * Real.cos (radians (tip5pA t 1)) := by
    have hpair := resize_pair_dotp hW2pos hm3W hm4W hra3 hra4
    have hm34 : dotp (rotatePoint pm O (O + rdir) θh - O)
        (rotatePoint pm O (O + rdir) (-θh) - O) =
        Real.cos (radians (tip5pA t 1)) * dotp (pm - O) (pm - O) := by
      rw [hm3eq, hm4eq, dotp_rodrigues_rodrigues hk2 hk2w2, Real.cos_neg,
        Real.sin_neg]
      have h2θ : 2 * θh = radians (tip5pA t 1) := by
        rw [hθh_def, radians, radians]
        ring
      rw [← h2θ, Real.cos_two_mul]
      linear_combination (-(dotp (pm - O) (pm - O))) * Real.sin_sq_add_cos_sq θh
    rw [hpair, hm34]
    have hW2ne : dotp (pm - O) (pm - O) ≠ 0 := ne_of_gt hW2pos
    field_simp
    ring
  have hbuild : buildTip5p O anchorXyz t =
      some ((if t = "acceptor" then [a1, a2, a3, a4] else [a3, a4, a1, a2]).zip
        tip5pTypes) := by
    rw [buildTip5p_def, hv, Option.some_bind, ← ha1_def, ← hpv_def, ← hθ₀_def,
      hra2, Option.some_bind, hrdir, Option.some_bind, ← hpm_def, ← hθh_def,
      hra3, Option.some_bind, hra4, Option.some_bind]
  by_cases hacc : t = "acceptor"
  · have hd0v : tip5pD t 0 = 0.9572 := by norm_num [tip5pD, hacc]
    have hd1v : tip5pD t 1 = 0.9572 := by norm_num [tip5pD, hacc]
    have hd3v : tip5pD t 3 = 0.7 := by norm_num [tip5pD, hacc]
    have ha0v : tip5pA t 0 = 104.52 := by norm_num [tip5pA, hacc]
    have ha1v : tip5pA t 1 = 109.47 := by norm_num [tip5pA, hacc]
    refine ⟨a1, a2, a3, a4, ?_, ?_, ?_, ?_, ?_, ?_, ?_⟩
    · rw [hbuild, if_pos hacc]
      rfl
    · rw [hdista1, hd0v]
    · rw [hdista2, hd1v]
    · rw [hdista3, hd3v]
    · rw [hdista4, hd3v]
    · rw [hdot12, hθ₀_def, ha0v, hd0v, hd1v]
      ring
    · rw [hdot34, ha1v, hd3v]
  · have hd0v : tip5pD t 0 = 0.7 := by norm_num [tip5pD, hacc]
    have hd1v : tip5pD t 1 = 0.7 := by norm_num [tip5pD, hacc]
    have hd3v : tip5pD t 3 = 0.9572 := by norm_num [tip5pD, hacc]
    have ha0v : tip5pA t 0 = 109.47 := by norm_num [tip5pA, hacc]
    have ha1v : tip5pA t 1 = 104.52 := by norm_num [tip5pA, hacc]
    refine ⟨a3, a4, a1, a2, ?_, ?_, ?_, ?_, ?_, ?_, ?_⟩
    · rw [hbuild, if_neg hacc]
      rfl
    · rw [hdista3, hd3v]
    · rw [hdista4, hd3v]
    · rw [hdista1, hd0v]
    · rw [hdista2, hd1v]
    · rw [hdot34, ha1v, hd3v]
    · rw [hdot12, hθ₀_def, ha0v, hd0v, hd1v]
      ring

theorem unit_x_ne_zero_vec : (⟨1, 0, 0⟩ : V3) ≠ ⟨0, 0, 0⟩ := by
  intro h
  have hx := congrArg V3.x h
  norm_num at hx

/-- C2: for every water with a nondegenerate anchor, `build_tip5p` adds
exactly 4 satellite sites: two at 0.9572 Å and two at 0.7 Å from the oxygen,
with the angle between the 0.9572 Å pair equal to 104.52° and between the
0.7 Å pair equal to 109.47°, for acceptor and donor roles alike. -/
theorem build_tip5p_satellites (oxygenXyz anchorXyz : V3) (anchorType : String)
    (hne : anchorXyz ≠ oxygenXyz) :
    ∃ s1 s2 s3 s4 : V3,
      buildTip5p oxygenXyz anchorXyz anchorType =
        some [(s1, "HD"), (s2, "HD"), (s3, "Lp"), (s4, "Lp")] ∧
      (euclideanDistance oxygenXyz s1 = 0.9572 ∧
        euclideanDistance oxygenXyz s2 = 0.9572) ∧
      (euclideanDistance oxygenXyz s3 = 0.7 ∧
        euclideanDistance oxygenXyz s4 = 0.7) ∧
      dotp (s1 - oxygenXyz) (s2 - oxygenXyz) =
        0.9572 ^ 2 * Real.cos (radians 104.52) ∧
      dotp (s3 - oxygenXyz) (s4 - oxygenXyz) =
        0.7 ^ 2 * Real.cos (radians 109.47) := by
  obtain ⟨s1, s2, s3, s4, hb, h1, h2, h3, h4, h12, h34⟩ :=
    buildTip5p_spec oxygenXyz anchorXyz anchorType hne
  exact ⟨s1, s2, s3, s4, hb, ⟨h1, h2⟩, ⟨h3, h4⟩, h12, h34⟩

/-- Witness for C2 at a concrete acceptor water. -/
theorem build_tip5p_satellites_witness :
    ((⟨1, 0, 0⟩ : V3) ≠ ⟨0, 0, 0⟩) ∧
      ∃ s1 s2 s3 s4 : V3,
        buildTip5p ⟨0, 0, 0⟩ ⟨1, 0, 0⟩ "acceptor" =
          some [(s1, "HD"), (s2, "HD"), (s3, "Lp"), (s4, "Lp")] ∧
        (euclideanDistance ⟨0, 0, 0⟩ s1 = 0.9572 ∧
          euclideanDistance ⟨0, 0, 0⟩ s2 = 0.9572) ∧
        (euclideanDistance ⟨0, 0, 0⟩ s3 = 0.7 ∧
          euclideanDistance ⟨0, 0, 0⟩ s4 = 0.7) ∧
        dotp (s1 - ⟨0, 0, 0⟩) (s2 - ⟨0, 0, 0⟩) =
          0.9572 ^ 2 * Real.cos (radians 104.52) ∧
        dotp (s3 - ⟨0, 0, 0⟩) (s4 - ⟨0, 0, 0⟩) =
          0.7 ^ 2 * Real.cos (radians 109.47) :=
  ⟨unit_x_ne_zero_vec,
    build_tip5p_satellites ⟨0, 0, 0⟩ ⟨1, 0, 0⟩ "acceptor" unit_x_ne_zero_vec⟩

/-- C3 counterexample: for a donor water, the satellites are emitted with
atom types `[HD, HD, Lp, Lp]` — not `[Lp, Lp, HD, HD]` — and the first
emitted site sits at the hydrogen distance 0.9572 Å, not 0.7 Å: the donor
branch reorders the constructed points so that the hydrogens still come
first. -/
theorem build_tip5p_donor_order_counterexample :
    Option.map (fun l => l.map Prod.snd)
        (buildTip5p ⟨0, 0, 0⟩ ⟨1, 0, 0⟩ "donor") =
      some ["HD", "HD", "Lp", "Lp"] ∧
    Option.map (fun l => l.map
        (fun s => euclideanDistance (⟨0, 0, 0⟩ : V3) s.1))
        (buildTip5p ⟨0, 0, 0⟩ ⟨1, 0, 0⟩ "donor") =
      some [0.9572, 0.9572, 0.7, 0.7] ∧
    (["HD", "HD", "Lp", "Lp"] : List String) ≠ ["Lp", "Lp", "HD", "HD"] ∧
    (0.9572 : ℝ) ≠ 0.7 := by
  obtain ⟨s1, s2, s3, s4, hb, h1, h2, h3, h4, _, _⟩ :=
    buildTip5p_spec ⟨0, 0, 0⟩ ⟨1, 0, 0⟩ "donor" unit_x_ne_zero_vec
  refine ⟨?_, ?_, by decide, by norm_num⟩
  · rw [hb, Option.map_some']
    rfl
  · rw [hb, Option.map_some']
    simp only [List.map_cons, List.map_nil]
    rw [h1, h2, h3, h4]

/-- C3 (amended): for both the acceptor and the donor role, `build_tip5p`
emits the four satellites in the fixed order `[H, H, Lp, Lp]` with fixed
atom-type labels `[HD, HD, Lp, Lp]`; the role only determines which
internally constructed pair of points supplies the hydrogens. -/
theorem build_tip5p_emission_order (oxygenXyz anchorXyz : V3)
    (anchorType : String) (hne : anchorXyz ≠ oxygenXyz) :
    Option.map (fun l => l.map Prod.snd)
        (buildTip5p oxygenXyz anchorXyz anchorType) =
      some ["HD", "HD", "Lp", "Lp"] ∧
    ∃ s1 s2 s3 s4 : V3,
      buildTip5p oxygenXyz anchorXyz anchorType =
        some [(s1, "HD"), (s2, "HD"), (s3, "Lp"), (s4, "Lp")] ∧
      euclideanDistance oxygenXyz s1 = 0.9572 ∧
      euclideanDistance oxygenXyz s2 = 0.9572 ∧
      euclideanDistance oxygenXyz s3 = 0.7 ∧
      euclideanDistance oxygenXyz s4 = 0.7 := by
  obtain ⟨s1, s2, s3, s4, hb, h1, h2, h3, h4, _, _⟩ :=
    buildTip5p_spec oxygenXyz anchorXyz anchorType hne
  refine ⟨?_, s1, s2, s3, s4, hb, h1, h2, h3, h4⟩
  rw [hb, Option.map_some']
  rfl

/-- Witness for C3's amended theorem at a concrete donor water. -/
theorem build_tip5p_emission_order_witness :
    ((⟨1, 0, 0⟩ : V3) ≠ ⟨0, 0, 0⟩) ∧
      (Option.map (fun l => l.map Prod.snd)
          (buildTip5p ⟨0, 0, 0⟩ ⟨1, 0, 0⟩ "donor") =
        some ["HD", "HD", "Lp", "Lp"] ∧
      ∃ s1 s2 s3 s4 : V3,
        buildTip5p ⟨0, 0, 0⟩ ⟨1, 0, 0⟩ "donor" =
          some [(s1, "HD"), (s2, "HD"), (s3, "Lp"), (s4, "Lp")] ∧
        euclideanDistance ⟨0, 0, 0⟩ s1 = 0.9572 ∧
        euclideanDistance ⟨0, 0, 0⟩ s2 = 0.9572 ∧
        euclideanDistance ⟨0, 0, 0⟩ s3 = 0.7 ∧
        euclideanDistance ⟨0, 0, 0⟩ s4 = 0.7) :=
  ⟨unit_x_ne_zero_vec,
    build_tip5p_emission_order ⟨0, 0, 0⟩ ⟨1, 0, 0⟩ "donor" unit_x_ne_zero_vec⟩

end WK
